import Mathlib

/-!
Shallow embedding of the incremental revision synchronization engine of
`ws/db/grabbers/revision.py` (class `GrabberRevisions`), together with a
semantics for the emitted storage operations, and theorems checking the
specification claims against it.

Modelling conventions:
* Python `set`s and `dict`s are modelled as lists (insertion order) with
  no-duplicate insertion; only membership and iteration are used by the code.
* The generator `gen_update` is modelled as a function returning the list of
  `(sql, params)` pairs yielded before any exception, together with the
  exception (if any) that aborted the run.
* Remote API calls and database reads performed during generation
  (`api.call_api`, the `exists` check on `revision`, `Title` parsing, the
  `max(old_id)` seed) are supplied through an `Env` record of functions,
  fixed for the run.
-/

namespace WsSync

/-- Set-insert on a list: `s.add(x)` for a Python `set` (order = insertion). -/
def listInsert {α : Type} [DecidableEq α] (x : α) (xs : List α) : List α :=
  if x ∈ xs then xs else xs ++ [x]

/-- Set-removal on a list: `s.remove(x)` / `s.discard(x)` for a Python `set`. -/
def listRemove {α : Type} [DecidableEq α] (x : α) (xs : List α) : List α :=
  xs.filter (fun y => y ≠ x)

/-- Association-list lookup: `d.get(k)` for a Python `dict`. -/
def alistGet {κ α : Type} [DecidableEq κ] (k : κ) : List (κ × α) → Option α
  | [] => none
  | (k', v) :: rest => if k' = k then some v else alistGet k rest

/-- `d.get(k, default)`. -/
def alistGetD {κ α : Type} [DecidableEq κ] (k : κ) (d : List (κ × α)) (dflt : α) : α :=
  (alistGet k d).getD dflt

/-- `d[k] = v` for a Python `dict`: replace in place, or append a new entry. -/
def alistSet {κ α : Type} [DecidableEq κ] (k : κ) (v : α) : List (κ × α) → List (κ × α)
  | [] => [(k, v)]
  | (k', v') :: rest => if k' = k then (k, v) :: rest else (k', v') :: alistSet k v rest

/-- `del d[k]` for a Python `dict` (no-op when the key is absent, which is how
`gen_update` uses it behind a membership guard). -/
def alistErase {κ α : Type} [DecidableEq κ] (k : κ) (d : List (κ × α)) : List (κ × α) :=
  d.filter (fun p => p.1 ≠ k)

/-- Keys of a dict, in insertion order. -/
def alistKeys {κ α : Type} (d : List (κ × α)) : List κ :=
  d.map Prod.fst

/-- `ws.utils.value_or_none` (utility module, not under src/): maps falsy
values to `None`; on page ids this sends `0` to `None`. -/
def value_or_none (v : Option Nat) : Option Nat :=
  match v with
  | some 0 => none
  | x => x

/-- Structural worker for `iterChunks`: the fuel is an upper bound on the
number of chunks (each chunk consumes at least the head element, so the
input length suffices). -/
def iterChunksAux {α : Type} (n : Nat) : Nat → List α → List (List α)
  | _, [] => []
  | 0, xs => [xs]
  | fuel + 1, x :: xs => (x :: xs.take (n - 1)) :: iterChunksAux n fuel (xs.drop (n - 1))

/-- `ws.utils.iter_chunks` (utility module, not under src/): split a sequence
into consecutive chunks of at most `n` elements. -/
def iterChunks {α : Type} (n : Nat) (xs : List α) : List (List α) :=
  iterChunksAux n xs.length xs

/-- One revision as returned by the remote API (`rev` dicts of
`gen_revisions` / `gen_deletedrevisions`). -/
structure Revision where
  revid : Nat
  parentid : Option Nat
  comment : String
  userid : Nat
  user : String
  timestamp : Nat
  minor : Bool
  size : Nat
  sha1 : String
  contentmodel : String
  contentformat : Option String
  content : String
  tags : List String
deriving Repr, DecidableEq

/-- One page of the live feed (`list=allrevisions` items). -/
structure Page where
  pageid : Option Nat
  ns : Nat
  title : String
  revisions : List Revision
deriving Repr, DecidableEq

/-- One page object inside a `call_api` result (`result["query"]["pages"]`):
may carry a `revisions` and/or a `deletedrevisions` key (empty list = key
absent; only emptiness is observable through the generators). -/
structure ApiPage where
  pageid : Option Nat
  ns : Nat
  title : String
  revisions : List Revision
  deletedrevisions : List Revision
deriving Repr, DecidableEq

/-- A raw `call_api` result: continuation markers plus the page objects. -/
structure ApiResult where
  rvcontinue : Bool
  drvcontinue : Bool
  pages : List ApiPage
deriving Repr, DecidableEq

/-- `le["params"]` of a merge log event. -/
structure MergeParams where
  dest_ns : Nat
  dest_title : String
  mergepoint : Nat
deriving Repr, DecidableEq

/-- Typed log events, as dispatched by the `le["type"]` / `le["action"]`
branches of `gen_update` (lines 296-343 of revision.py). -/
inductive LogEvent where
  | deletePage (title : String)
  | restorePage (title : String) (logpage : Nat)
  | deleteRevision (ids : List Nat) (bitmask : Nat)
  | importPage (logpage : Nat)
  | mergePage (logpage : Nat) (params : MergeParams)
  | movePage (logpage : Nat)
  | tagUpdate (revid : Option Nat) (tagsAdded : List String) (tagsRemoved : List String)
deriving Repr, DecidableEq

/-- A row of the `revision` relation (the `db_entry` of `gen_revisions`);
the key `rev_id` is kept outside the row. `rev_deleted` is not part of the
insert and defaults to 0; it is mutated by a dedicated update. -/
structure RevRow where
  rev_page : Option Nat
  rev_comment : String
  rev_user : Nat
  rev_user_text : String
  rev_timestamp : Nat
  rev_minor_edit : Bool
  rev_len : Nat
  rev_parent_id : Option Nat
  rev_sha1 : String
  rev_content_model : String
  rev_content_format : Option String
  rev_text_id : Option Nat
  rev_deleted : Nat
deriving Repr, DecidableEq

/-- A row of the `archive` relation (the `db_entry` of
`gen_deletedrevisions`); the key `ar_rev_id` is kept outside the row.
`ar_page_id` is always `None` at insert time (not visible through the API);
`ar_parent_id` is likewise not visible and stays `None`. -/
structure ArRow where
  ar_namespace : Nat
  ar_title : String
  ar_page_id : Option Nat
  ar_comment : String
  ar_user : Nat
  ar_user_text : String
  ar_timestamp : Nat
  ar_minor_edit : Bool
  ar_len : Nat
  ar_parent_id : Option Nat
  ar_sha1 : String
  ar_content_model : String
  ar_content_format : Option String
  ar_text_id : Option Nat
  ar_deleted : Nat
deriving Repr, DecidableEq

/-- The value bound to the `b_title` parameter of the
`("update", "archive.ar_page_id")` query.  At line 351 of revision.py the
source reads `dbtitle = title.dbtitle(ns),` - the trailing comma makes the
bound value a 1-tuple rather than a string, so we must distinguish a plain
string binding from a tuple binding. -/
inductive TitleBind where
  | str (s : String)
  | tup (ss : List String)
deriving Repr, DecidableEq

/-- The storage operations: each constructor is one `(sql, params)` pair of
`self.sql` as yielded by the generators, with the bound parameters. -/
inductive Op where
  | insertText (old_id : Nat) (old_text : String) (old_flags : String)
  | insertRevision (rev_id : Nat) (row : RevRow)
  | insertArchive (ar_rev_id : Nat) (row : ArRow)
  | insertTaggedRevision (rev_id : Nat) (tag : String)
  | insertTaggedArchivedRevision (rev_id : Nat) (tag : String)
  | deleteTaggedRevision (rev_id : Nat) (tag : String)
  | deleteTaggedArchivedRevision (rev_id : Nat) (tag : String)
  | updateArPageId (ns : Nat) (title : TitleBind) (pageid : Nat)
  | moveTaggedArchivedRevision (page_id : Nat)
  | moveRevision (page_id : Nat)
  | mergeRevision (src_page_id : Nat) (dest_ns : Nat) (dest_title : String) (mergepoint : Nat)
  | updateRevDeleted (revid : Nat) (bitmask : Nat)
  | updateArDeleted (revid : Nat) (bitmask : Nat)
deriving Repr, DecidableEq

/-- Exceptions that abort the generator. -/
inductive SyncError where
  | notImplemented (msg : String)
  | assertionError (msg : String)
deriving Repr, DecidableEq

/-- The message of the `NotImplementedError` raised at line 425 of
revision.py.  Note the source never calls `.format(...)` on it, so the
braces are emitted literally and the message does not name any page. -/
def mergeAbortMsg : String :=
  "Cannot merge revisions from [[\x7b\x7d]] to [[\x7b\x7d]]: target page has been moved."

/-- Message of the continuation error at lines 378-379. -/
def drvContinueMsg : String :=
  "Handling of the drvcontinue parameter is not implemented."

/-- Message of the continuation error at lines 403-404. -/
def rvDrvContinueMsg : String :=
  "Handling of the rvcontinue and drvcontinue parameters is not implemented."

/-- The external collaborators of one run: remote API calls, title parsing,
and the database reads performed at generation/application time. -/
structure Env where
  withContent : Bool
  maxIdsPerQuery : Nat
  /-- `Title(api, t).namespacenumber` -/
  titleNs : String → Nat
  /-- `Title(api, t).dbtitle(ns)` -/
  titleDb : String → String
  /-- the generation-time `exists` check on `revision.rev_id` (line 450) -/
  revExists : Nat → Bool
  /-- `max(text.old_id)` at seeding time, `0` when the relation is empty -/
  seedTextId : Nat
  /-- the `prop=deletedrevisions` query over one chunk of deleted titles -/
  drvCall : List String → ApiResult
  /-- the `prop=revisions|deletedrevisions` query over one chunk of imported page ids -/
  impCall : List Nat → ApiResult
  /-- apply-time lookup `page.page_id` by `(page_namespace, page_title)`,
  used by the merge query's scalar subselect -/
  pageLookup : Nat → String → Option Nat

/-- `_get_text_id_gen` step: the generator state is the last value handed
out; each `next()` increments and yields it. -/
def nextTextId (value : Nat) : Nat × Nat :=
  (value + 1, value + 1)

/-- The seed of `_get_text_id_gen`: `max(text.old_id)` over the stored
blob ids, or `0` when the relation is empty. -/
def textIdSeed (storedIds : List Nat) : Nat :=
  storedIds.foldr Nat.max 0

/-- The ids handed out by `n` successive `next()` calls on the generator
seeded with `v`, in order. -/
def allocTextIds : Nat → Nat → List Nat
  | _, 0 => []
  | v, n + 1 =>
    let p := nextTextId v
    p.1 :: allocTextIds p.2 n

/-- The `db_entry` built for one revision in `gen_revisions`. -/
def revEntry (pageid : Option Nat) (rev : Revision) (textId : Option Nat) : RevRow :=
  { rev_page := value_or_none pageid
    rev_comment := rev.comment
    rev_user := rev.userid
    rev_user_text := rev.user
    rev_timestamp := rev.timestamp
    rev_minor_edit := rev.minor
    rev_len := rev.size
    rev_parent_id := rev.parentid
    rev_sha1 := rev.sha1
    rev_content_model := rev.contentmodel
    rev_content_format := rev.contentformat
    rev_text_id := textId
    rev_deleted := 0 }

/-- The `db_entry` built for one revision in `gen_deletedrevisions`. -/
def arEntry (ns : Nat) (dbtitle : String) (rev : Revision) (textId : Option Nat) : ArRow :=
  { ar_namespace := ns
    ar_title := dbtitle
    ar_page_id := none
    ar_comment := rev.comment
    ar_user := rev.userid
    ar_user_text := rev.user
    ar_timestamp := rev.timestamp
    ar_minor_edit := rev.minor
    ar_len := rev.size
    ar_parent_id := none
    ar_sha1 := rev.sha1
    ar_content_model := rev.contentmodel
    ar_content_format := rev.contentformat
    ar_text_id := textId
    ar_deleted := 0 }

/-- `gen_revisions` over one page's revision list, threading the text-id
generator state `v`; returns the yielded operations and the new state. -/
def genRevisionsAux (withContent : Bool) (pageid : Option Nat) :
    List Revision → Nat → List Op × Nat
  | [], v => ([], v)
  | rev :: rest, v =>
    let v' := if withContent then v + 1 else v
    let textOps : List Op := if withContent then [Op.insertText v' rev.content "utf-8"] else []
    let textId : Option Nat := if withContent then some v' else none
    let tagOps := rev.tags.map (fun t => Op.insertTaggedRevision rev.revid t)
    let res := genRevisionsAux withContent pageid rest v'
    (textOps ++ Op.insertRevision rev.revid (revEntry pageid rev textId) :: tagOps ++ res.1, res.2)

/-- `gen_deletedrevisions` over one page's revision list (the namespace and
db-title are computed once per page), threading the text-id state. -/
def genDeletedRevisionsAux (withContent : Bool) (ns : Nat) (dbtitle : String) :
    List Revision → Nat → List Op × Nat
  | [], v => ([], v)
  | rev :: rest, v =>
    let v' := if withContent then v + 1 else v
    let textOps : List Op := if withContent then [Op.insertText v' rev.content "utf-8"] else []
    let textId : Option Nat := if withContent then some v' else none
    let tagOps := rev.tags.map (fun t => Op.insertTaggedArchivedRevision rev.revid t)
    let res := genDeletedRevisionsAux withContent ns dbtitle rest v'
    (textOps ++ Op.insertArchive rev.revid (arEntry ns dbtitle rev textId) :: tagOps ++ res.1, res.2)

/-- Accumulator of the log-event loop of `gen_update` (lines 282-289). -/
structure ResolverState where
  deleted_pages : List String
  undeleted_pages : List (String × Nat)
  merged_pages : List (Nat × MergeParams)
  moved_pages : List Nat
  deleted_revisions : List (Nat × Nat)
  added_tags : List (Nat × List String)
  removed_tags : List (Nat × List String)
  imported_pages : List Nat
deriving Repr, DecidableEq

def ResolverState.init : ResolverState :=
  { deleted_pages := []
    undeleted_pages := []
    merged_pages := []
    moved_pages := []
    deleted_revisions := []
    added_tags := []
    removed_tags := []
    imported_pages := [] }

/-- Lines 332-337: process one tag of `_added` against the accumulated
per-revision tag sets. -/
def applyAddedTag (revid : Nat) (tag : String)
    (acc : List (Nat × List String) × List (Nat × List String)) :
    List (Nat × List String) × List (Nat × List String) :=
  if tag ∈ alistGetD revid acc.2 [] then
    (acc.1, alistSet revid (listRemove tag (alistGetD revid acc.2 [])) acc.2)
  else
    (alistSet revid (listInsert tag (alistGetD revid acc.1 [])) acc.1, acc.2)

/-- Lines 338-343: process one tag of `_removed`. -/
def applyRemovedTag (revid : Nat) (tag : String)
    (acc : List (Nat × List String) × List (Nat × List String)) :
    List (Nat × List String) × List (Nat × List String) :=
  if tag ∈ alistGetD revid acc.1 [] then
    (alistSet revid (listRemove tag (alistGetD revid acc.1 [])) acc.1, acc.2)
  else
    (acc.1, alistSet revid (listInsert tag (alistGetD revid acc.2 [])) acc.2)

/-- One iteration of the log-event loop (lines 296-343).  `new_revids` holds
the revision ids collected from the live feed before the loop;
`new_deleted_revids` is the set initialized at line 272 - the source never
adds to it, which the caller mirrors by passing `[]`.  The `assert` at
line 331 is modelled as an error result. -/
def processLogEvent (new_revids new_deleted_revids : List Nat)
    (s : ResolverState) : LogEvent → Except String ResolverState
  | .deletePage title =>
    .ok { s with
            deleted_pages := listInsert title s.deleted_pages
            undeleted_pages := alistErase title s.undeleted_pages }
  | .restorePage title logpage =>
    .ok { s with
            undeleted_pages := alistSet title logpage s.undeleted_pages
            deleted_pages := listRemove title s.deleted_pages }
  | .deleteRevision ids bitmask =>
    .ok { s with
            deleted_revisions :=
              ids.foldl (fun d revid => alistSet revid bitmask d) s.deleted_revisions }
  | .importPage logpage =>
    .ok { s with imported_pages := listInsert logpage s.imported_pages }
  | .mergePage logpage params =>
    .ok { s with merged_pages := alistSet logpage params s.merged_pages }
  | .movePage logpage =>
    .ok { s with moved_pages := listInsert logpage s.moved_pages }
  | .tagUpdate revid? tagsAdded tagsRemoved =>
    match revid? with
    | none => .ok s
    | some revid =>
      if revid ∈ new_revids ∨ revid ∈ new_deleted_revids then
        .ok s
      else
        let addedSet := tagsAdded.dedup
        let removedSet := tagsRemoved.dedup
        if addedSet.any (fun t => t ∈ removedSet) then
          .error "assert added and removed disjoint"
        else
          let acc := addedSet.foldl
            (fun acc t => applyAddedTag revid t acc) (s.added_tags, s.removed_tags)
          let acc := removedSet.foldl
            (fun acc t => applyRemovedTag revid t acc) acc
          .ok { s with added_tags := acc.1, removed_tags := acc.2 }

/-- The whole log-event loop. -/
def processLogEvents (new_revids new_deleted_revids : List Nat)
    (s : ResolverState) : List LogEvent → Except String ResolverState
  | [] => .ok s
  | le :: rest =>
    match processLogEvent new_revids new_deleted_revids s le with
    | .error e => .error e
    | .ok s' => processLogEvents new_revids new_deleted_revids s' rest

/-- The live-feed loop of `gen_update` (lines 277-280): emit `gen_revisions`
per page and collect the new revision ids into the `new_revids` set. -/
def genArvPhase (env : Env) : List Page → Nat → List Nat → List Op × Nat × List Nat
  | [], v, nr => ([], v, nr)
  | p :: rest, v, nr =>
    let res := genRevisionsAux env.withContent p.pageid p.revisions v
    let nr' := p.revisions.foldl (fun s rev => listInsert rev.revid s) nr
    let rest' := genArvPhase env rest res.2 nr'
    (res.1 ++ rest'.1, rest'.2.1, rest'.2.2)

/-- The undelete loop (lines 346-356).  Note the trailing comma at line 351
(`dbtitle = title.dbtitle(ns),`) makes the title binding a 1-tuple. -/
def genUndeletePhase (env : Env) : List (String × Nat) → List Op
  | [] => []
  | (t, pid) :: rest =>
    let ns := env.titleNs t
    let dbtitle := env.titleDb t
    Op.updateArPageId ns (TitleBind.tup [dbtitle]) pid ::
    Op.moveTaggedArchivedRevision pid ::
    Op.moveRevision pid ::
    genUndeletePhase env rest

/-- Page loop of one `prop=deletedrevisions` result (lines 380-386). -/
def genDrvPages (env : Env) : List ApiPage → Nat → List Nat → List Op × Nat × List Nat
  | [], v, nr => ([], v, nr)
  | p :: rest, v, nr =>
    if p.deletedrevisions.isEmpty then
      genDrvPages env rest v nr
    else
      let res := genDeletedRevisionsAux env.withContent p.ns (env.titleDb p.title)
                    p.deletedrevisions v
      let nr' := p.deletedrevisions.foldl (fun s rev => listInsert rev.revid s) nr
      let rest' := genDrvPages env rest res.2 nr'
      (res.1 ++ rest'.1, rest'.2.1, rest'.2.2)

/-- Chunk loop over the deleted pages (lines 366-386): the continuation
check at lines 378-379 aborts before the page loop of that result runs. -/
def genDrvChunks (env : Env) : List (List String) → Nat → List Nat →
    List Op × Nat × List Nat × Option SyncError
  | [], v, nr => ([], v, nr, none)
  | chunk :: rest, v, nr =>
    let res := env.drvCall chunk
    if res.drvcontinue then
      ([], v, nr, some (.notImplemented drvContinueMsg))
    else
      let cur := genDrvPages env res.pages v nr
      let rest' := genDrvChunks env rest cur.2.1 cur.2.2
      (cur.1 ++ rest'.1, rest'.2.1, rest'.2.2.1, rest'.2.2.2)

/-- Page loop of one imported-pages result (lines 405-415). -/
def genImpPages (env : Env) : List ApiPage → Nat → List Nat → List Op × Nat × List Nat
  | [], v, nr => ([], v, nr)
  | p :: rest, v, nr =>
    let c1 : List Op × Nat × List Nat :=
      if p.revisions.isEmpty then ([], v, nr)
      else
        let res := genRevisionsAux env.withContent p.pageid p.revisions v
        (res.1, res.2, p.revisions.foldl (fun s rev => listInsert rev.revid s) nr)
    let c2 : List Op × Nat × List Nat :=
      if p.deletedrevisions.isEmpty then ([], c1.2.1, c1.2.2)
      else
        let res := genDeletedRevisionsAux env.withContent p.ns (env.titleDb p.title)
                      p.deletedrevisions c1.2.1
        (res.1, res.2, p.deletedrevisions.foldl (fun s rev => listInsert rev.revid s) c1.2.2)
    let rest' := genImpPages env rest c2.2.1 c2.2.2
    (c1.1 ++ c2.1 ++ rest'.1, rest'.2.1, rest'.2.2)

/-- Chunk loop over the imported pages (lines 389-415) with the
continuation check of lines 403-404. -/
def genImpChunks (env : Env) : List (List Nat) → Nat → List Nat →
    List Op × Nat × List Nat × Option SyncError
  | [], v, nr => ([], v, nr, none)
  | chunk :: rest, v, nr =>
    let res := env.impCall chunk
    if res.rvcontinue || res.drvcontinue then
      ([], v, nr, some (.notImplemented rvDrvContinueMsg))
    else
      let cur := genImpPages env res.pages v nr
      let rest' := genImpChunks env rest cur.2.1 cur.2.2
      (cur.1 ++ rest'.1, rest'.2.1, rest'.2.2.1, rest'.2.2.2)

/-- The merge loop (lines 423-429): the moved-page safeguard raises before
the merge operation of the offending page is yielded. -/
def genMergePhase (moved : List Nat) : List (Nat × MergeParams) → List Op × Option SyncError
  | [] => ([], none)
  | (pid, p) :: rest =>
    if pid ∈ moved then
      ([], some (.notImplemented mergeAbortMsg))
    else
      let res := genMergePhase moved rest
      (Op.mergeRevision pid p.dest_ns p.dest_title p.mergepoint :: res.1, res.2)

/-- The `rev_deleted` / `ar_deleted` update loop (lines 435-437). -/
def genDeletedRevsPhase : List (Nat × Nat) → List Op
  | [] => []
  | (revid, bitmask) :: rest =>
    Op.updateRevDeleted revid bitmask ::
    Op.updateArDeleted revid bitmask ::
    genDeletedRevsPhase rest

/-- The added-tags loop (lines 440-456): the target relation is chosen by
the generation-time existence check on `revision.rev_id`. -/
def genAddedTagsPhase (env : Env) : List (Nat × List String) → List Op
  | [] => []
  | (revid, tags) :: rest =>
    tags.map (fun t =>
        if env.revExists revid then Op.insertTaggedRevision revid t
        else Op.insertTaggedArchivedRevision revid t)
      ++ genAddedTagsPhase env rest

/-- The removed-tags loop (lines 458-468): deletes are issued against both
relations unconditionally. -/
def genRemovedTagsPhase : List (Nat × List String) → List Op
  | [] => []
  | (revid, tags) :: rest =>
    tags.foldr (fun t acc =>
        Op.deleteTaggedRevision revid t :: Op.deleteTaggedArchivedRevision revid t :: acc)
      (genRemovedTagsPhase rest)

/-- `gen_update`: the full incremental run, returning every operation
yielded before any exception together with the aborting exception, if any.
`arvPages` is the live feed (`list=allrevisions` from `since`); `les` is the
time-ordered log-event stream. -/
def genUpdate (env : Env) (arvPages : List Page) (les : List LogEvent) :
    List Op × Option SyncError :=
  let arv := genArvPhase env arvPages env.seedTextId []
  let arvOps := arv.1
  let new_revids := arv.2.2
  -- line 272: `new_deleted_revids = set()` - the source never adds to it
  let new_deleted_revids : List Nat := []
  match processLogEvents new_revids new_deleted_revids ResolverState.init les with
  | .error e => (arvOps, some (.assertionError e))
  | .ok s =>
    let undelOps := genUndeletePhase env s.undeleted_pages
    let drv := genDrvChunks env (iterChunks env.maxIdsPerQuery s.deleted_pages) arv.2.1 new_revids
    let drvOps := drv.1
    match drv.2.2.2 with
    | some e => (arvOps ++ undelOps ++ drvOps, some e)
    | none =>
      let imp := genImpChunks env (iterChunks env.maxIdsPerQuery s.imported_pages) drv.2.1 drv.2.2.1
      let impOps := imp.1
      match imp.2.2.2 with
      | some e => (arvOps ++ undelOps ++ drvOps ++ impOps, some e)
      | none =>
        let mrg := genMergePhase s.moved_pages s.merged_pages
        match mrg.2 with
        | some e => (arvOps ++ undelOps ++ drvOps ++ impOps ++ mrg.1, some e)
        | none =>
          (arvOps ++ undelOps ++ drvOps ++ impOps ++ mrg.1
             ++ genDeletedRevsPhase s.deleted_revisions
             ++ genAddedTagsPhase env s.added_tags
             ++ genRemovedTagsPhase s.removed_tags, none)

/-- `gen_insert`: the bootstrap run (full live and archived feeds). -/
def genInsert (env : Env) (arvPages : List Page) (adrPages : List Page) : List Op :=
  let rec liveLoop : List Page → Nat → List Op × Nat
    | [], v => ([], v)
    | p :: rest, v =>
      let res := genRevisionsAux env.withContent p.pageid p.revisions v
      let rest' := liveLoop rest res.2
      (res.1 ++ rest'.1, rest'.2)
  let rec delLoop : List Page → Nat → List Op × Nat
    | [], v => ([], v)
    | p :: rest, v =>
      let res := genDeletedRevisionsAux env.withContent p.ns (env.titleDb p.title) p.revisions v
      let rest' := delLoop rest res.2
      (res.1 ++ rest'.1, rest'.2)
  let live := liveLoop arvPages env.seedTextId
  (live.1 ++ (delLoop adrPages live.2).1)

/-- A row of the `text` relation (key `old_id` outside the row). -/
structure TextRow where
  old_text : String
  old_flags : String
deriving Repr, DecidableEq

/-- The replica state: the five relations touched by the engine, as maps
from their natural keys.  `revision` and `archive` are keyed by revision
id, the tag-link relations by (revision id, tag name) - the source keys
tag links by the tag id resolved from the external `tag` relation via a
scalar subselect, which is equivalent as long as that fixed external
mapping is injective. -/
@[ext]
structure Replica where
  text : Nat → Option TextRow
  revision : Nat → Option RevRow
  archive : Nat → Option ArRow
  tgrev : Nat → String → Bool
  tgar : Nat → String → Bool

def Replica.empty : Replica :=
  { text := fun _ => none
    revision := fun _ => none
    archive := fun _ => none
    tgrev := fun _ _ => false
    tgar := fun _ _ => false }

/-- Whether a bound title parameter matches a stored `ar_title` value.  A
plain string compares by equality.  The driver (psycopg2) renders a
Python 1-tuple as a parenthesized scalar - `("P",)` becomes `("P")` - and
PostgreSQL evaluates a parenthesized scalar as the scalar itself, so the
1-tuple produced by the trailing comma at line 351 matches exactly its
sole element.  Tuples of any other length would be rendered as row values
that never equal a text column; the generators only ever build 1-tuples. -/
def titleMatches : TitleBind → String → Bool
  | .str s, t => s == t
  | .tup [s], t => s == t
  | .tup _, _ => false

/-- The column mapping of the `("move", "revision")` query (lines 98-123):
the archived columns inserted into `revision`. -/
def arToRev (a : ArRow) : RevRow :=
  { rev_page := a.ar_page_id
    rev_comment := a.ar_comment
    rev_user := a.ar_user
    rev_user_text := a.ar_user_text
    rev_timestamp := a.ar_timestamp
    rev_minor_edit := a.ar_minor_edit
    rev_len := a.ar_len
    rev_parent_id := a.ar_parent_id
    rev_sha1 := a.ar_sha1
    rev_content_model := a.ar_content_model
    rev_content_format := a.ar_content_format
    rev_text_id := a.ar_text_id
    rev_deleted := a.ar_deleted }

/-- Semantics of one storage operation, following the `self.sql` statements
of `GrabberRevisions.__init__`:
* the `text` insert overwrites content and flags on conflict;
* the `revision` / `archive` inserts update only the text-id column on
  conflict;
* tag-link inserts do nothing on conflict, deletes are keyed deletes;
* `("update", "archive.ar_page_id")` updates every archived row matching
  the bound namespace and title (the statement has no null-check on
  `ar_page_id`);
* the moves are delete-returning-then-insert keyed by `ar_page_id`; the
  plain re-insert is modelled as an overwrite of the (empty, by the
  live/archived exclusivity invariant) target slot;
* the merge update reassigns `rev_page` for live revisions of the source
  page at or before the merge point, to the apply-time page lookup of the
  destination namespace and title;
* the bitmask updates set the deletion field of the row with the bound
  revision id, in whichever relation holds it. -/
def applyOp (env : Env) (s : Replica) : Op → Replica
  | .insertText old_id txt fl =>
    { s with text := fun k => if k = old_id then some ⟨txt, fl⟩ else s.text k }
  | .insertRevision rid row =>
    { s with revision := fun k =>
        if k = rid then
          match s.revision rid with
          | none => some row
          | some old => some { old with rev_text_id := row.rev_text_id }
        else s.revision k }
  | .insertArchive rid row =>
    { s with archive := fun k =>
        if k = rid then
          match s.archive rid with
          | none => some row
          | some old => some { old with ar_text_id := row.ar_text_id }
        else s.archive k }
  | .insertTaggedRevision rid tag =>
    { s with tgrev := fun r t => if r = rid ∧ t = tag then true else s.tgrev r t }
  | .insertTaggedArchivedRevision rid tag =>
    { s with tgar := fun r t => if r = rid ∧ t = tag then true else s.tgar r t }
  | .deleteTaggedRevision rid tag =>
    { s with tgrev := fun r t => if r = rid ∧ t = tag then false else s.tgrev r t }
  | .deleteTaggedArchivedRevision rid tag =>
    { s with tgar := fun r t => if r = rid ∧ t = tag then false else s.tgar r t }
  | .updateArPageId ns tb pid =>
    { s with archive := fun k =>
        match s.archive k with
        | none => none
        | some a =>
          if a.ar_namespace = ns ∧ titleMatches tb a.ar_title then
            some { a with ar_page_id := some pid }
          else some a }
  | .moveTaggedArchivedRevision pid =>
    let inArch : Nat → Bool := fun r =>
      match s.archive r with
      | some a => a.ar_page_id = some pid
      | none => false
    { s with
        tgar := fun r t => if inArch r then false else s.tgar r t
        tgrev := fun r t => if inArch r && s.tgar r t then true else s.tgrev r t }
  | .moveRevision pid =>
    { s with
        archive := fun k =>
          match s.archive k with
          | some a => if a.ar_page_id = some pid then none else some a
          | none => none
        revision := fun k =>
          match s.archive k with
          | some a => if a.ar_page_id = some pid then some (arToRev a) else s.revision k
          | none => s.revision k }
  | .mergeRevision src ns title mp =>
    { s with revision := fun k =>
        match s.revision k with
        | none => none
        | some row =>
          if row.rev_page = some src ∧ row.rev_timestamp ≤ mp then
            some { row with rev_page := env.pageLookup ns title }
          else some row }
  | .updateRevDeleted rid b =>
    { s with revision := fun k =>
        if k = rid then
          match s.revision k with
          | none => none
          | some row => some { row with rev_deleted := b }
        else s.revision k }
  | .updateArDeleted rid b =>
    { s with archive := fun k =>
        if k = rid then
          match s.archive k with
          | none => none
          | some a => some { a with ar_deleted := b }
        else s.archive k }

/-- Apply a storage-operation list in order. -/
def applyOps (env : Env) (s : Replica) (ops : List Op) : Replica :=
  ops.foldl (applyOp env) s

/-- Whether an operation is a tag-link action (add or remove) for the given
revision id. -/
def isTagOp (R : Nat) : Op → Bool
  | .insertTaggedRevision r _ => decide (r = R)
  | .insertTaggedArchivedRevision r _ => decide (r = R)
  | .deleteTaggedRevision r _ => decide (r = R)
  | .deleteTaggedArchivedRevision r _ => decide (r = R)
  | _ => false

/-- Disjointness of the ended-deleted set and the ended-restored dict. -/
def ResolverInv (s : ResolverState) : Prop :=
  ∀ t, t ∈ s.deleted_pages → t ∉ alistKeys s.undeleted_pages

/-! ### Per-key projections of the operation semantics

The replica fields are maps from natural keys;  every operation except the
two moves and `updateArPageId` reads and writes a single key of a single
field.  For windows in which no archived row inserted by the window falls
inside the namespace-and-title scope of any of the window's `ar_page_id`
updates, every state reachable from an empty replica keeps all archived
rows at an unknown page id and outside those scopes (`gen_deletedrevisions`
always inserts `ar_page_id = NULL`, and no operation ever rewrites the
namespace or title of a stored row), so on those states the scoped update
matches no row and the moves find nothing to move; the evolution of every
key is then an autonomous fold over the projected per-key operations
below. -/

/-- Per-key abstract operation on a keyed row store. -/
inductive RowKOp (ρ : Type) where
  | ins (row : ρ)
  | upd (b : Nat)
  | mrg (src : Nat) (dest : Option Nat) (mp : Nat)
deriving Repr, DecidableEq

/-- Per-key semantics on the `revision` relation. -/
def revKStep : Option RevRow → RowKOp RevRow → Option RevRow
  | none, .ins row => some row
  | some old, .ins row => some { old with rev_text_id := row.rev_text_id }
  | none, .upd _ => none
  | some row, .upd b => some { row with rev_deleted := b }
  | none, .mrg _ _ _ => none
  | some row, .mrg src dest mp =>
    if row.rev_page = some src ∧ row.rev_timestamp ≤ mp then
      some { row with rev_page := dest }
    else some row

/-- Per-key semantics on the `archive` relation (merges never touch it). -/
def arKStep : Option ArRow → RowKOp ArRow → Option ArRow
  | none, .ins row => some row
  | some old, .ins row => some { old with ar_text_id := row.ar_text_id }
  | none, .upd _ => none
  | some row, .upd b => some { row with ar_deleted := b }
  | v, .mrg _ _ _ => v

/-- Per-key step restricted to present rows. -/
def revRowStep (r : RevRow) : RowKOp RevRow → RevRow
  | .ins row => { r with rev_text_id := row.rev_text_id }
  | .upd b => { r with rev_deleted := b }
  | .mrg src dest mp =>
    if r.rev_page = some src ∧ r.rev_timestamp ≤ mp then { r with rev_page := dest } else r

/-- Per-key step restricted to present archived rows. -/
def arRowStep (r : ArRow) : RowKOp ArRow → ArRow
  | .ins row => { r with ar_text_id := row.ar_text_id }
  | .upd b => { r with ar_deleted := b }
  | .mrg _ _ _ => r

/-- Evolution of the text-id column of a present revision row. -/
def revFoldTid : List (RowKOp RevRow) → Option Nat → Option Nat
  | [], t => t
  | RowKOp.ins row :: K, _ => revFoldTid K row.rev_text_id
  | RowKOp.upd _ :: K, t => revFoldTid K t
  | RowKOp.mrg _ _ _ :: K, t => revFoldTid K t

/-- Evolution of the deletion bitmask of a present revision row. -/
def revFoldDel : List (RowKOp RevRow) → Nat → Nat
  | [], d => d
  | RowKOp.upd b :: K, _ => revFoldDel K b
  | RowKOp.ins _ :: K, d => revFoldDel K d
  | RowKOp.mrg _ _ _ :: K, d => revFoldDel K d

/-- Evolution of the page column of a present revision row with timestamp
`ts` under a sequence of merge retargetings. -/
def revFoldPage (ts : Nat) : List (RowKOp RevRow) → Option Nat → Option Nat
  | [], p => p
  | RowKOp.mrg src dest mp :: K, p =>
    revFoldPage ts K (if p = some src ∧ ts ≤ mp then dest else p)
  | RowKOp.ins _ :: K, p => revFoldPage ts K p
  | RowKOp.upd _ :: K, p => revFoldPage ts K p

/-- Evolution of the text-id column of a present archived row. -/
def arFoldTid : List (RowKOp ArRow) → Option Nat → Option Nat
  | [], t => t
  | RowKOp.ins row :: K, _ => arFoldTid K row.ar_text_id
  | RowKOp.upd _ :: K, t => arFoldTid K t
  | RowKOp.mrg _ _ _ :: K, t => arFoldTid K t

/-- Evolution of the deletion bitmask of a present archived row. -/
def arFoldDel : List (RowKOp ArRow) → Nat → Nat
  | [], d => d
  | RowKOp.upd b :: K, _ => arFoldDel K b
  | RowKOp.ins _ :: K, d => arFoldDel K d
  | RowKOp.mrg _ _ _ :: K, d => arFoldDel K d

/-- Projection of an operation onto the revision-relation key `r`. -/
def revKProj (env : Env) (r : Nat) : Op → Option (RowKOp RevRow)
  | .insertRevision rid row => if rid = r then some (.ins row) else none
  | .updateRevDeleted rid b => if rid = r then some (.upd b) else none
  | .mergeRevision src ns t mp => some (.mrg src (env.pageLookup ns t) mp)
  | _ => none

/-- Projection of an operation onto the archive-relation key `r`. -/
def arKProj (r : Nat) : Op → Option (RowKOp ArRow)
  | .insertArchive rid row => if rid = r then some (.ins row) else none
  | .updateArDeleted rid b => if rid = r then some (.upd b) else none
  | _ => none

/-- Projection onto the text-relation key `k` (each hit is a whole-row
overwrite, per the text upsert's conflict policy). -/
def textKProj (k : Nat) : Op → Option TextRow
  | .insertText old_id txt fl => if old_id = k then some ⟨txt, fl⟩ else none
  | _ => none

/-- Projection onto the live tag-link key `(r, t)` (each hit writes the
presence bit). -/
def tgrevKProj (r : Nat) (t : String) : Op → Option Bool
  | .insertTaggedRevision rid tag => if rid = r ∧ tag = t then some true else none
  | .deleteTaggedRevision rid tag => if rid = r ∧ tag = t then some false else none
  | _ => none

/-- Projection onto the archived tag-link key `(r, t)`. -/
def tgarKProj (r : Nat) (t : String) : Op → Option Bool
  | .insertTaggedArchivedRevision rid tag => if rid = r ∧ tag = t then some true else none
  | .deleteTaggedArchivedRevision rid tag => if rid = r ∧ tag = t then some false else none
  | _ => none

/-- Every archived row in the state has an unknown page id. -/
def archNone (s : Replica) : Prop :=
  ∀ r a, s.archive r = some a → a.ar_page_id = none

/-- The syntactic facts about generated operations used by the replay
analysis: archive inserts carry no page id, and the scoped page-id update
binds its title as a 1-tuple (as the source does at line 351). -/
def opSafe : Op → Prop
  | .insertArchive _ row => row.ar_page_id = none
  | .updateArPageId _ tb _ => ∃ ss, tb = TitleBind.tup ss
  | _ => True

/-- Operations emitted before the merge loop. -/
def preMergeOp : Op → Prop
  | .mergeRevision _ _ _ _ => False
  | .updateRevDeleted _ _ => False
  | .updateArDeleted _ _ => False
  | _ => True

/-- Merge operations. -/
def isMergeOp : Op → Prop
  | .mergeRevision _ _ _ _ => True
  | _ => False

/-- Operations emitted after the merge loop. -/
def postMergeOp : Op → Prop
  | .insertTaggedRevision _ _ => True
  | .insertTaggedArchivedRevision _ _ => True
  | .deleteTaggedRevision _ _ => True
  | .deleteTaggedArchivedRevision _ _ => True
  | .updateRevDeleted _ _ => True
  | .updateArDeleted _ _ => True
  | _ => False

/-- No merge resolves (at apply time) to the source page of another merge
of the same window. -/
def mergeChainOk (env : Env) : Op → Op → Bool
  | .mergeRevision _ ns t _, .mergeRevision src' _ _ _ =>
    decide (env.pageLookup ns t ≠ some src')
  | _, _ => true

/-- The scoped `ar_page_id` update of `op` matches no archived row of the
state: on such states the operation is an identity. -/
def opInert (s : Replica) : Op → Prop
  | Op.updateArPageId ns tb _ =>
    ∀ r a, s.archive r = some a →
      ¬(a.ar_namespace = ns ∧ titleMatches tb a.ar_title = true)
  | _ => True

/-- No archived row inserted by the window falls inside the
namespace-and-title scope of any of the window's `ar_page_id` updates
(otherwise a second pass would set its page id and the moves would then
relocate it, which a first pass from a fresh replica did not do). -/
def restoreTitleOk : Op → Op → Bool
  | Op.insertArchive _ row, Op.updateArPageId ns tb _ =>
    decide (¬(row.ar_namespace = ns ∧ titleMatches tb row.ar_title = true))
  | _, _ => true

/-- The replay invariant: all archived rows carry an unknown page id and
every `ar_page_id` update of the window misses all of them. -/
def archInert (L : List Op) (s : Replica) : Prop :=
  archNone s ∧ ∀ op ∈ L, opInert s op

/-! ### Concrete data for closed theorems and witnesses -/

/-- A concrete environment for witnesses and counterexamples. -/
def baseEnv : Env :=
  { withContent := false
    maxIdsPerQuery := 500
    titleNs := fun _ => 0
    titleDb := fun t => t
    revExists := fun _ => false
    seedTextId := 0
    drvCall := fun _ => { rvcontinue := false, drvcontinue := false, pages := [] }
    impCall := fun _ => { rvcontinue := false, drvcontinue := false, pages := [] }
    pageLookup := fun _ _ => none }

/-- Like `baseEnv` but every revision id passes the generation-time
existence check on the live relation. -/
def baseEnv2 : Env :=
  { baseEnv with revExists := fun _ => true }

/-- A sample feed revision carrying one tag. -/
def revT : Revision :=
  { revid := 100, parentid := none, comment := "c", userid := 1, user := "u"
    timestamp := 10, minor := false, size := 3, sha1 := "s", contentmodel := "wikitext"
    contentformat := none, content := "x", tags := ["T"] }

/-- Environment whose deleted-pages feed returns revision 100 of page P. -/
def env3 : Env :=
  { baseEnv with drvCall := fun _ =>
      { rvcontinue := false, drvcontinue := false
        pages := [{ pageid := none, ns := 0, title := "P",
                    revisions := [], deletedrevisions := [revT] }] } }

/-- Window of the tag-exclusion failing input: page P is deleted (bringing
revision 100 in through the deleted-pages feed) and a tag-change event for
revision 100 arrives in the same window. -/
def claim3Les : List LogEvent := [.deletePage "P", .tagUpdate (some 100) ["T"] []]

/-- Environment whose drv and imp calls both signal a continuation. -/
def env4 : Env :=
  { baseEnv with
      drvCall := fun _ => { rvcontinue := false, drvcontinue := true, pages := [] }
      impCall := fun _ => { rvcontinue := true, drvcontinue := false, pages := [] } }

/-- A replica holding one archived row of page P with unknown page id. -/
def replica8 : Replica :=
  { Replica.empty with
      archive := fun k => if k = 55 then some (arEntry 0 "P" revT none) else none }

/-- Apply-time page lookups for the chained-merge window. -/
def env6 : Env :=
  { baseEnv with pageLookup := fun _ t =>
      if t = "X" then some 9 else if t = "Y" then some 1 else none }

/-- A revision of page 2 dated before both merge points. -/
def rev200 : Revision := { revT with revid := 200, timestamp := 5, tags := [] }

/-- The live-feed page of the chained-merge window. -/
def page6 : Page := { pageid := some 2, ns := 0, title := "B", revisions := [rev200] }

/-- Two merges where the second's destination resolves to the first's
source page. -/
def les6 : List LogEvent := [.mergePage 1 ⟨0, "X", 100⟩, .mergePage 2 ⟨0, "Y", 100⟩]

/-- The storage operations of the chained-merge window. -/
def win6ops : List Op := (genUpdate env6 [page6] les6).1

/-- A merge-free window used to witness the amended idempotence claim. -/
def pageW : Page := { pageid := some 3, ns := 0, title := "W", revisions := [rev200] }

/-- Events of the witness window: a visibility-bitmask change and a tag
addition for an older revision. -/
def lesW : List LogEvent := [.deleteRevision [200] 4, .tagUpdate (some 777) ["T"] []]

/-- Operations of the witness window. -/
def winWOps : List Op := (genUpdate baseEnv [pageW] lesW).1

/-- A replica holding one live and one archived row, for the conflict-policy
frame theorem. -/
def replica9 : Replica :=
  { Replica.empty with
      revision := fun k => if k = 1 then some (revEntry (some 4) revT none) else none
      archive := fun k => if k = 2 then some (arEntry 0 "P" revT none) else none }

/-- A replica whose archived row 55 already carries the restored page id 7
and holds one archived tag link, for the move semantics of the restore
path. -/
def replica8b : Replica :=
  { Replica.empty with
      archive := fun k =>
        if k = 55 then some { arEntry 0 "P" revT none with ar_page_id := some 7 } else none
      tgar := fun r t => decide (r = 55) && decide (t = "T") }

/-- Environment whose imported-pages feed returns an archived revision of
a page titled P - the same title a restore event of this window targets. -/
def envR : Env :=
  { baseEnv with impCall := fun _ =>
      { rvcontinue := false, drvcontinue := false
        pages := [{ pageid := some 9, ns := 0, title := "P",
                    revisions := [], deletedrevisions := [rev200] }] } }

/-- A window that restores page P while the imported-pages feed inserts an
archived row with the same namespace and title: the second pass's scoped
update then catches the row the first pass inserted, and the moves
relocate it. -/
def lesR : List LogEvent := [.restorePage "P" 7, .importPage 9]

/-- The storage operations of the restore-interference window. -/
def winRops : List Op := (genUpdate envR [] lesR).1

/-! ### Elementary lemmas about the set/dict encodings -/

theorem mem_listInsert {α : Type} [DecidableEq α] (x y : α) (xs : List α) :
    x ∈ listInsert y xs ↔ x = y ∨ x ∈ xs := by
  unfold listInsert
  by_cases h : y ∈ xs
  · simp only [if_pos h]
    constructor
    · exact fun hx => Or.inr hx
    · rintro (rfl | hx)
      · exact h
      · exact hx
  · simp only [if_neg h, List.mem_append, List.mem_singleton]
    tauto

theorem mem_listRemove {α : Type} [DecidableEq α] (x y : α) (xs : List α) :
    x ∈ listRemove y xs ↔ x ∈ xs ∧ x ≠ y := by
  unfold listRemove
  simp [List.mem_filter]

theorem mem_alistKeys_alistErase {κ α : Type} [DecidableEq κ] (x k : κ) (d : List (κ × α)) :
    x ∈ alistKeys (alistErase k d) ↔ x ∈ alistKeys d ∧ x ≠ k := by
  unfold alistKeys alistErase
  induction d with
  | nil => simp
  | cons p rest ih =>
    simp only [List.filter_cons, decide_eq_true_eq]
    by_cases h : p.1 = k
    · rw [if_neg (fun hne => hne h)]
      rw [ih]
      simp only [List.map_cons, List.mem_cons]
      constructor
      · rintro ⟨hx, hk⟩
        exact ⟨Or.inr hx, hk⟩
      · rintro ⟨hor, hk⟩
        rcases hor with hxp | hx
        · exact absurd (hxp.trans h) hk
        · exact ⟨hx, hk⟩
    · rw [if_pos h]
      simp only [List.map_cons, List.mem_cons, ih]
      constructor
      · rintro (rfl | ⟨hx, hk⟩)
        · exact ⟨Or.inl rfl, h⟩
        · exact ⟨Or.inr hx, hk⟩
      · rintro ⟨(rfl | hx), hk⟩
        · exact Or.inl rfl
        · exact Or.inr ⟨hx, hk⟩

theorem mem_alistKeys_alistSet {κ α : Type} [DecidableEq κ] (x k : κ) (v : α)
    (d : List (κ × α)) : x ∈ alistKeys (alistSet k v d) ↔ x = k ∨ x ∈ alistKeys d := by
  induction d with
  | nil => simp [alistSet, alistKeys]
  | cons p rest ih =>
    by_cases h : p.1 = k
    · simp only [alistSet, if_pos h, alistKeys, List.map_cons, List.mem_cons]
      rw [h]
      tauto
    · simp only [alistSet, if_neg h, alistKeys, List.map_cons, List.mem_cons] at *
      rw [ih]
      tauto

theorem alistGet_alistSet_self {κ α : Type} [DecidableEq κ] (k : κ) (v : α)
    (d : List (κ × α)) : alistGet k (alistSet k v d) = some v := by
  induction d with
  | nil => simp [alistSet, alistGet]
  | cons p rest ih =>
    by_cases h : p.1 = k
    · simp [alistSet, if_pos h, alistGet]
    · simp [alistSet, if_neg h, alistGet, h, ih]

theorem alistGet_alistSet_ne {κ α : Type} [DecidableEq κ] (k k' : κ) (v : α)
    (d : List (κ × α)) (h : k ≠ k') : alistGet k' (alistSet k v d) = alistGet k' d := by
  induction d with
  | nil => simp [alistSet, alistGet, h]
  | cons p rest ih =>
    by_cases hp : p.1 = k
    · subst hp
      simp [alistSet, alistGet, h, ih]
    · simp only [alistSet, if_neg hp, alistGet]
      by_cases hp' : p.1 = k'
      · simp [hp']
      · simp [hp', ih]

end WsSync

namespace WsSync

/-! ### Claim theorems: resolver-level and closed facts -/

theorem processLogEvents_tagNone_middle (nr ndr : List Nat) (a r : List String) :
    ∀ (les1 les2 : List LogEvent) (s : ResolverState),
      processLogEvents nr ndr s (les1 ++ LogEvent.tagUpdate none a r :: les2)
        = processLogEvents nr ndr s (les1 ++ les2) := by
  intro les1
  induction les1 with
  | nil =>
    intro les2 s
    rfl
  | cons le rest ih =>
    intro les2 s
    simp only [List.cons_append, processLogEvents]
    cases hle : processLogEvent nr ndr s le with
    | error err => rfl
    | ok s' => exact ih les2 s'

/-- C10: a tag-change log event that carries no revision id is silently
skipped by the incremental sync: inserting it anywhere into the window's
log-event stream leaves the accumulated tag sets and the whole generated
operation sequence unchanged. -/
theorem claim10_tag_event_without_revid_skipped (env : Env) (arvPages : List Page)
    (les1 les2 : List LogEvent) (a r : List String) :
    genUpdate env arvPages (les1 ++ LogEvent.tagUpdate none a r :: les2)
      = genUpdate env arvPages (les1 ++ les2) := by
  unfold genUpdate
  simp only [processLogEvents_tagNone_middle]

/-- C2 (failing-input evaluation): a window in which page 5 is both merged
and moved aborts with the `NotImplementedError` before any merge operation
for page 5 is emitted (the operation list is empty), but the error message
is the constant unformatted template - the same for page 5 and page 6 - so
it does not identify the offending page. -/
theorem claim2_merge_move_abort_eval :
    genUpdate baseEnv [] [.mergePage 5 ⟨0, "Dst", 99⟩, .movePage 5]
      = ([], some (.notImplemented mergeAbortMsg))
    ∧ genUpdate baseEnv [] [.mergePage 6 ⟨0, "Dst", 99⟩, .movePage 6]
      = ([], some (.notImplemented mergeAbortMsg)) :=
  ⟨rfl, rfl⟩

/-- C3 (failing-input evaluation): revision 100 is newly created in this
window and arrives through the deleted-pages feed, yet the tag-change event
for it still contributes to the reconciliation output: the archived tag
link (100, T) is emitted twice - once by the revision-added processing and
once by the tag phase - and the run does not abort. -/
theorem claim3_deleted_feed_tag_double_apply_eval :
    ((genUpdate env3 [] claim3Les).1.count (Op.insertTaggedArchivedRevision 100 "T") = 2)
    ∧ (genUpdate env3 [] claim3Les).2 = none :=
  ⟨rfl, rfl⟩

/-- C8: every page restored in the window produces exactly three
operations in this order - the scoped page-id update over archived rows
matching the page's namespace and title (the title is bound as a 1-tuple,
which the driver adapts to the equivalent scalar), then the move of the
matching archived tag links, then the move of the matching archived
revision rows.  The scoped update sets the page id on every matching
archived row whose page id is still unknown and leaves rows outside its
namespace-and-title scope unchanged; both moves are keyed by the now-known
page id and delete from the archived relation as part of the move while
inserting into the live relation. -/
theorem claim8_restore_scoped_update_and_moves :
    (∀ (env : Env) (t : String) (pid : Nat),
        genUpdate env [] [LogEvent.restorePage t pid]
          = ([Op.updateArPageId (env.titleNs t) (TitleBind.tup [env.titleDb t]) pid,
              Op.moveTaggedArchivedRevision pid, Op.moveRevision pid], none))
    ∧ (∀ (env : Env) (s : Replica) (ns : Nat) (db : String) (pid r : Nat) (a : ArRow),
        s.archive r = some a → a.ar_namespace = ns → a.ar_title = db → a.ar_page_id = none →
        (applyOp env s (Op.updateArPageId ns (TitleBind.tup [db]) pid)).archive r
          = some { a with ar_page_id := some pid })
    ∧ (∀ (env : Env) (s : Replica) (ns : Nat) (db : String) (pid r : Nat) (a : ArRow),
        s.archive r = some a → ¬(a.ar_namespace = ns ∧ a.ar_title = db) →
        (applyOp env s (Op.updateArPageId ns (TitleBind.tup [db]) pid)).archive r = some a)
    ∧ (∀ (env : Env) (s : Replica) (pid r : Nat) (a : ArRow) (tg : String),
        s.archive r = some a → a.ar_page_id = some pid →
        (applyOp env s (Op.moveTaggedArchivedRevision pid)).tgar r tg = false
          ∧ (applyOp env s (Op.moveTaggedArchivedRevision pid)).tgrev r tg
              = (s.tgar r tg || s.tgrev r tg))
    ∧ (∀ (env : Env) (s : Replica) (pid r : Nat) (a : ArRow),
        s.archive r = some a → a.ar_page_id = some pid →
        (applyOp env s (Op.moveRevision pid)).archive r = none
          ∧ (applyOp env s (Op.moveRevision pid)).revision r = some (arToRev a)) := by
  refine ⟨?_, ?_, ?_, ?_, ?_⟩
  · intro env t pid
    simp [genUpdate, genArvPhase, processLogEvents, processLogEvent, listInsert, listRemove,
          alistErase, alistSet, ResolverState.init, genUndeletePhase, iterChunks, iterChunksAux,
          genDrvChunks, genImpChunks, genMergePhase, genDeletedRevsPhase, genAddedTagsPhase,
          genRemovedTagsPhase, List.take_nil, List.drop_nil]
  · intro env s ns db pid r a harch hns hdb hpid
    subst hns
    subst hdb
    simp [applyOp, harch, titleMatches]
  · intro env s ns db pid r a harch hne
    have hcond : ¬(a.ar_namespace = ns ∧ titleMatches (TitleBind.tup [db]) a.ar_title = true) := by
      rintro ⟨h1, h2⟩
      refine hne ⟨h1, ?_⟩
      simp only [titleMatches, beq_iff_eq] at h2
      exact h2.symm
    simp [applyOp, harch, hcond]
  · intro env s pid r a tg harch hpid
    constructor
    · simp [applyOp, harch, hpid]
    · simp only [applyOp, harch, hpid]
      cases htg : s.tgar r tg <;> simp [htg]
  · intro env s pid r a harch hpid
    constructor
    · simp [applyOp, harch, hpid]
    · simp [applyOp, harch, hpid]

theorem claim8_witness :
    genUpdate baseEnv [] [LogEvent.restorePage "P" 7]
      = ([Op.updateArPageId 0 (TitleBind.tup ["P"]) 7,
          Op.moveTaggedArchivedRevision 7, Op.moveRevision 7], none)
    ∧ (applyOp baseEnv replica8 (Op.updateArPageId 0 (TitleBind.tup ["P"]) 7)).archive 55
        = some { arEntry 0 "P" revT none with ar_page_id := some 7 }
    ∧ (applyOp baseEnv replica8b (Op.moveTaggedArchivedRevision 7)).tgar 55 "T" = false
    ∧ (applyOp baseEnv replica8b (Op.moveTaggedArchivedRevision 7)).tgrev 55 "T" = true
    ∧ (applyOp baseEnv replica8b (Op.moveRevision 7)).archive 55 = none
    ∧ (applyOp baseEnv replica8b (Op.moveRevision 7)).revision 55
        = some (arToRev { arEntry 0 "P" revT none with ar_page_id := some 7 }) :=
  ⟨claim8_restore_scoped_update_and_moves.1 baseEnv "P" 7,
   claim8_restore_scoped_update_and_moves.2.1 baseEnv replica8 0 "P" 7 55
     (arEntry 0 "P" revT none) rfl rfl rfl rfl,
   (claim8_restore_scoped_update_and_moves.2.2.2.1 baseEnv replica8b 7 55
     { arEntry 0 "P" revT none with ar_page_id := some 7 } "T" rfl rfl).1,
   ((claim8_restore_scoped_update_and_moves.2.2.2.1 baseEnv replica8b 7 55
     { arEntry 0 "P" revT none with ar_page_id := some 7 } "T" rfl rfl).2).trans (by decide),
   (claim8_restore_scoped_update_and_moves.2.2.2.2 baseEnv replica8b 7 55
     { arEntry 0 "P" revT none with ar_page_id := some 7 } rfl rfl).1,
   (claim8_restore_scoped_update_and_moves.2.2.2.2 baseEnv replica8b 7 55
     { arEntry 0 "P" revT none with ar_page_id := some 7 } rfl rfl).2⟩

/-- C6 (counterexample): for the chained-merge window - a live revision of
page 2 plus merges 1 → X and 2 → Y, where Y resolves to page 1 at apply
time - applying the generated operation list twice to a fresh replica does
not equal applying it once: the second pass re-fires the first merge on the
row the second merge had retargeted. -/
theorem claim6_counterexample_double_apply :
    applyOps env6 (applyOps env6 Replica.empty win6ops) win6ops
      ≠ applyOps env6 Replica.empty win6ops := by
  have h200 : (applyOps env6 (applyOps env6 Replica.empty win6ops) win6ops).revision 200
      ≠ (applyOps env6 Replica.empty win6ops).revision 200 := by decide
  intro h
  exact h200 (by rw [h])

end WsSync

namespace WsSync

/-- C4: an unknown continuation token in a deleted-revisions or
imported-pages result raises the explicit not-implemented error before any
page of that result is processed: the run output carries the error and no
operation derived from the continued result. -/
theorem claim4_unsupported_continuation_fatal (env : Env) (t : String) (p : Nat)
    (hd : (env.drvCall [t]).drvcontinue = true)
    (hi : (env.impCall [p]).rvcontinue = true ∨ (env.impCall [p]).drvcontinue = true) :
    genUpdate env [] [LogEvent.deletePage t]
      = ([], some (SyncError.notImplemented drvContinueMsg))
    ∧ genUpdate env [] [LogEvent.importPage p]
      = ([], some (SyncError.notImplemented rvDrvContinueMsg)) := by
  have hb : ((env.impCall [p]).rvcontinue || (env.impCall [p]).drvcontinue) = true := by
    rcases hi with h | h <;> simp [h]
  constructor
  · simp [genUpdate, genArvPhase, processLogEvents, processLogEvent, listInsert, alistErase,
          ResolverState.init, genUndeletePhase, iterChunks, iterChunksAux, genDrvChunks,
          genDrvPages, genImpChunks, genMergePhase, genDeletedRevsPhase, genAddedTagsPhase,
          genRemovedTagsPhase, hd, List.take_nil, List.drop_nil]
  · simp [genUpdate, genArvPhase, processLogEvents, processLogEvent, listInsert, alistErase,
          ResolverState.init, genUndeletePhase, iterChunks, iterChunksAux, genDrvChunks,
          genDrvPages, genImpChunks, genImpPages, genMergePhase, genDeletedRevsPhase,
          genAddedTagsPhase, genRemovedTagsPhase, hb, List.take_nil, List.drop_nil]

theorem claim4_witness :
    genUpdate env4 [] [LogEvent.deletePage "P"]
      = ([], some (SyncError.notImplemented drvContinueMsg))
    ∧ genUpdate env4 [] [LogEvent.importPage 7]
      = ([], some (SyncError.notImplemented rvDrvContinueMsg)) :=
  claim4_unsupported_continuation_fatal env4 "P" 7 rfl (Or.inl rfl)

theorem processLogEvent_inv (nr ndr : List Nat) (s s' : ResolverState) (le : LogEvent)
    (h : processLogEvent nr ndr s le = .ok s') (hs : ResolverInv s) : ResolverInv s' := by
  cases le with
  | deletePage title =>
    simp only [processLogEvent] at h
    cases h
    intro t ht hku
    rw [mem_listInsert] at ht
    rw [mem_alistKeys_alistErase] at hku
    rcases ht with rfl | ht
    · exact hku.2 rfl
    · exact hs t ht hku.1
  | restorePage title lp =>
    simp only [processLogEvent] at h
    cases h
    intro t ht hku
    rw [mem_listRemove] at ht
    rw [mem_alistKeys_alistSet] at hku
    rcases hku with rfl | hk
    · exact ht.2 rfl
    · exact hs t ht.1 hk
  | deleteRevision ids bm =>
    simp only [processLogEvent] at h
    cases h
    exact hs
  | importPage lp =>
    simp only [processLogEvent] at h
    cases h
    exact hs
  | mergePage lp pr =>
    simp only [processLogEvent] at h
    cases h
    exact hs
  | movePage lp =>
    simp only [processLogEvent] at h
    cases h
    exact hs
  | tagUpdate revid? a r =>
    cases revid? with
    | none =>
      simp only [processLogEvent] at h
      cases h
      exact hs
    | some rv =>
      simp only [processLogEvent] at h
      split at h
      · cases h
        exact hs
      · split at h
        · cases h
        · cases h
          exact hs

theorem processLogEvents_inv (nr ndr : List Nat) :
    ∀ (les : List LogEvent) (s s' : ResolverState),
      processLogEvents nr ndr s les = .ok s' → ResolverInv s → ResolverInv s' := by
  intro les
  induction les with
  | nil =>
    intro s s' h hs
    cases h
    exact hs
  | cons le rest ih =>
    intro s s' h hs
    simp only [processLogEvents] at h
    cases hle : processLogEvent nr ndr s le with
    | error e =>
      rw [hle] at h
      cases h
    | ok s1 =>
      rw [hle] at h
      exact ih s1 s' h (processLogEvent_inv nr ndr s s1 le hle hs)

/-- C5: after any prefix of the log-event loop the ended-deleted set and
the ended-restored dict are disjoint (a delete evicts the page from the
restored dict and a restore evicts it from the deleted set), and a window
consisting of delete(P) then restore(P) emits only the canonical restore
operations (the page-id update and the two archive-to-live moves), with no
residual delete-side processing. -/
theorem claim5_delete_restore_collapse :
    (∀ (nr ndr : List Nat) (les : List LogEvent) (n : Nat) (s : ResolverState),
        processLogEvents nr ndr ResolverState.init (les.take n) = .ok s →
        ∀ t, t ∈ s.deleted_pages → t ∉ alistKeys s.undeleted_pages)
    ∧ (∀ (env : Env) (t : String) (pid : Nat),
        genUpdate env [] [LogEvent.deletePage t, LogEvent.restorePage t pid]
          = ([Op.updateArPageId (env.titleNs t) (TitleBind.tup [env.titleDb t]) pid,
              Op.moveTaggedArchivedRevision pid, Op.moveRevision pid], none)) := by
  constructor
  · intro nr ndr les n s h
    exact processLogEvents_inv nr ndr (les.take n) ResolverState.init s h
      (fun t ht => absurd ht (List.not_mem_nil t))
  · intro env t pid
    simp [genUpdate, genArvPhase, processLogEvents, processLogEvent, listInsert, listRemove,
          alistErase, alistSet, ResolverState.init, genUndeletePhase, iterChunks, iterChunksAux,
          genDrvChunks, genImpChunks, genMergePhase, genDeletedRevsPhase, genAddedTagsPhase,
          genRemovedTagsPhase, List.take_nil, List.drop_nil]

theorem claim5_witness :
    ("P" : String) ∉ alistKeys
        ({ ResolverState.init with deleted_pages := ["P"] } : ResolverState).undeleted_pages
    ∧ genUpdate baseEnv [] [LogEvent.deletePage "B", LogEvent.restorePage "B" 3]
        = ([Op.updateArPageId 0 (TitleBind.tup ["B"]) 3,
            Op.moveTaggedArchivedRevision 3, Op.moveRevision 3], none) :=
  ⟨claim5_delete_restore_collapse.1 [] [] [LogEvent.deletePage "P"] 1
      { ResolverState.init with deleted_pages := ["P"] } rfl "P" (by decide),
   claim5_delete_restore_collapse.2 baseEnv "B" 3⟩

theorem allocTextIds_eq (v n : Nat) :
    allocTextIds v n = (List.range n).map (fun i => v + i + 1) := by
  induction n generalizing v with
  | zero => rfl
  | succ n ih =>
    rw [List.range_succ_eq_map]
    simp only [allocTextIds, nextTextId, List.map_cons, List.map_map, ih (v + 1)]
    have harith : ∀ i : Nat, v + 1 + i + 1 = v + Nat.succ i + 1 := by
      intro i
      omega
    simp [Function.comp, harith]

theorem le_textIdSeed (b : Nat) : ∀ ids : List Nat, b ∈ ids → b ≤ textIdSeed ids := by
  intro ids
  induction ids with
  | nil => intro h; cases h
  | cons a rest ih =>
    intro h
    rcases List.mem_cons.1 h with rfl | h
    · exact Nat.le_max_left _ _
    · exact Nat.le_trans (ih h) (Nat.le_max_right _ _)

/-- C7: the text-id generator, seeded once from the maximum stored blob id
(0 when the relation is empty), hands out strictly increasing ids: within
a run every allocation is strictly above all earlier allocations (hence no
id is returned twice) and strictly above every blob id stored at seeding
time. -/
theorem claim7_text_id_allocator (storedIds : List Nat) (n : Nat) :
    (allocTextIds (textIdSeed storedIds) n).Pairwise (· < ·)
    ∧ (∀ x ∈ allocTextIds (textIdSeed storedIds) n, textIdSeed storedIds < x)
    ∧ (∀ b ∈ storedIds, ∀ x ∈ allocTextIds (textIdSeed storedIds) n, b < x) := by
  have hmem : ∀ x ∈ allocTextIds (textIdSeed storedIds) n, textIdSeed storedIds < x := by
    intro x hx
    rw [allocTextIds_eq] at hx
    obtain ⟨i, _, rfl⟩ := List.mem_map.1 hx
    omega
  refine ⟨?_, hmem, ?_⟩
  · rw [allocTextIds_eq, List.pairwise_map]
    exact (List.pairwise_lt_range n).imp (fun h => by omega)
  · intro b hb x hx
    exact Nat.lt_of_le_of_lt (le_textIdSeed b storedIds hb) (hmem x hx)

theorem claim7_witness : (3 : Nat) < 8 :=
  (claim7_text_id_allocator [3, 7] 2).2.2 3 (by decide) 8 (by decide)

/-- C9: when an `AddRevision` or `AddArchivedRevision` upsert hits an
existing row with the same revision id, only the content-blob reference
column of that row changes; every other column of the row, every other row,
and every other relation are left exactly as they were. -/
theorem claim9_conflict_updates_only_text_id (env : Env) (s : Replica) (rid : Nat)
    (row : RevRow) (arow : ArRow) (old : RevRow) (aold : ArRow) :
    (s.revision rid = some old →
      (applyOp env s (Op.insertRevision rid row)).revision rid
          = some { old with rev_text_id := row.rev_text_id }
        ∧ (∀ k, k ≠ rid → (applyOp env s (Op.insertRevision rid row)).revision k = s.revision k)
        ∧ (applyOp env s (Op.insertRevision rid row)).archive = s.archive
        ∧ (applyOp env s (Op.insertRevision rid row)).text = s.text
        ∧ (applyOp env s (Op.insertRevision rid row)).tgrev = s.tgrev
        ∧ (applyOp env s (Op.insertRevision rid row)).tgar = s.tgar)
    ∧ (s.archive rid = some aold →
      (applyOp env s (Op.insertArchive rid arow)).archive rid
          = some { aold with ar_text_id := arow.ar_text_id }
        ∧ (∀ k, k ≠ rid → (applyOp env s (Op.insertArchive rid arow)).archive k = s.archive k)
        ∧ (applyOp env s (Op.insertArchive rid arow)).revision = s.revision
        ∧ (applyOp env s (Op.insertArchive rid arow)).text = s.text
        ∧ (applyOp env s (Op.insertArchive rid arow)).tgrev = s.tgrev
        ∧ (applyOp env s (Op.insertArchive rid arow)).tgar = s.tgar) := by
  constructor
  · intro h
    refine ⟨?_, ?_, rfl, rfl, rfl, rfl⟩
    · simp [applyOp, h]
    · intro k hk
      simp [applyOp, hk]
  · intro h
    refine ⟨?_, ?_, rfl, rfl, rfl, rfl⟩
    · simp [applyOp, h]
    · intro k hk
      simp [applyOp, hk]

theorem claim9_witness :
    (applyOp baseEnv replica9 (Op.insertRevision 1 (revEntry (some 4) revT (some 12)))).revision 1
      = some { revEntry (some 4) revT none with rev_text_id := some 12 } :=
  ((claim9_conflict_updates_only_text_id baseEnv replica9 1 (revEntry (some 4) revT (some 12))
      (arEntry 0 "P" revT (some 13)) (revEntry (some 4) revT none)
      (arEntry 0 "P" revT none)).1 rfl).1

end WsSync

namespace WsSync

/-! ### Claim C1: tag net effect through the full pipeline -/

theorem genRevisionsAux_filter_isTagOp (wc : Bool) (pid : Option Nat) (R : Nat) :
    ∀ (revs : List Revision) (v : Nat), (∀ rev ∈ revs, rev.revid ≠ R) →
      (genRevisionsAux wc pid revs v).1.filter (isTagOp R) = [] := by
  intro revs
  induction revs with
  | nil => intro v h; rfl
  | cons rev rest ih =>
    intro v h
    have hrev : rev.revid ≠ R := h rev (List.mem_cons_self rev rest)
    have hrest : ∀ r ∈ rest, r.revid ≠ R := fun r hr => h r (List.mem_cons_of_mem rev hr)
    have htags : ∀ tags : List String,
        (tags.map (fun t => Op.insertTaggedRevision rev.revid t)).filter (isTagOp R) = [] := by
      intro tags
      induction tags with
      | nil => rfl
      | cons a l ihl => simp [List.filter_cons, isTagOp, hrev, ihl]
    cases wc <;>
      simp [genRevisionsAux, List.filter_append, List.filter_cons, isTagOp, hrev,
            htags rev.tags, ih _ hrest]

theorem mem_foldl_listInsert (R : Nat) :
    ∀ (revs : List Revision) (nr : List Nat),
      R ∈ revs.foldl (fun s rev => listInsert rev.revid s) nr ↔
        R ∈ nr ∨ ∃ rev ∈ revs, rev.revid = R := by
  intro revs
  induction revs with
  | nil => simp
  | cons rev rest ih =>
    intro nr
    simp only [List.foldl_cons]
    rw [ih (listInsert rev.revid nr)]
    rw [mem_listInsert]
    constructor
    · rintro ((rfl | hnr) | ⟨r, hr, hrid⟩)
      · exact Or.inr ⟨rev, List.mem_cons_self rev rest, rfl⟩
      · exact Or.inl hnr
      · exact Or.inr ⟨r, List.mem_cons_of_mem rev hr, hrid⟩
    · rintro (hnr | ⟨r, hr, hrid⟩)
      · exact Or.inl (Or.inr hnr)
      · rcases List.mem_cons.1 hr with rfl | hr
        · exact Or.inl (Or.inl hrid.symm)
        · exact Or.inr ⟨r, hr, hrid⟩

theorem genArvPhase_filter_isTagOp (env : Env) (R : Nat) :
    ∀ (ps : List Page) (v : Nat) (nr : List Nat),
      (∀ p ∈ ps, ∀ rev ∈ p.revisions, rev.revid ≠ R) →
      (genArvPhase env ps v nr).1.filter (isTagOp R) = [] := by
  intro ps
  induction ps with
  | nil => intro v nr h; rfl
  | cons p rest ih =>
    intro v nr h
    simp [genArvPhase, List.filter_append,
          genRevisionsAux_filter_isTagOp env.withContent p.pageid R p.revisions v
            (h p (List.mem_cons_self p rest)),
          ih _ _ (fun q hq => h q (List.mem_cons_of_mem p hq))]

theorem genArvPhase_new_revids_not_mem (env : Env) (R : Nat) :
    ∀ (ps : List Page) (v : Nat) (nr : List Nat),
      (∀ p ∈ ps, ∀ rev ∈ p.revisions, rev.revid ≠ R) → R ∉ nr →
      R ∉ (genArvPhase env ps v nr).2.2 := by
  intro ps
  induction ps with
  | nil => intro v nr _ h2; exact h2
  | cons p rest ih =>
    intro v nr h1 h2
    refine ih _ _ (fun q hq => h1 q (List.mem_cons_of_mem p hq)) ?_
    intro hmem
    rcases (mem_foldl_listInsert R p.revisions nr).1 hmem with hnr | ⟨rev, hrev, hrid⟩
    · exact h2 hnr
    · exact h1 p (List.mem_cons_self p rest) rev hrev hrid

/-- C1: for a revision R not newly created in the window, the raw tag-event
sequence add(T1), remove(T1), add(T2) nets out through the resolver - the
add of T2 survives, the add/remove pair of T1 cancels - and the whole run's
operation list contains exactly one tag action for R, the add of T2 (to the
live tag relation, since R currently exists there), with no other tag
action for R and no error. -/
theorem claim1_tag_net_effect (env : Env) (arvPages : List Page) (R : Nat) (t1 t2 : String)
    (hnew : ∀ p ∈ arvPages, ∀ rev ∈ p.revisions, rev.revid ≠ R)
    (hex : env.revExists R = true) :
    ((genUpdate env arvPages
        [LogEvent.tagUpdate (some R) [t1] [], LogEvent.tagUpdate (some R) [] [t1],
         LogEvent.tagUpdate (some R) [t2] []]).1.filter (isTagOp R)
      = [Op.insertTaggedRevision R t2])
    ∧ (genUpdate env arvPages
        [LogEvent.tagUpdate (some R) [t1] [], LogEvent.tagUpdate (some R) [] [t1],
         LogEvent.tagUpdate (some R) [t2] []]).2 = none := by
  have hnr : R ∉ (genArvPhase env arvPages env.seedTextId []).2.2 :=
    genArvPhase_new_revids_not_mem env R arvPages env.seedTextId [] hnew (by simp)
  have hproc : processLogEvents (genArvPhase env arvPages env.seedTextId []).2.2 []
      ResolverState.init
      [LogEvent.tagUpdate (some R) [t1] [], LogEvent.tagUpdate (some R) [] [t1],
       LogEvent.tagUpdate (some R) [t2] []]
      = .ok { ResolverState.init with added_tags := [(R, [t2])] } := by
    simp [processLogEvents, processLogEvent, hnr, applyAddedTag, applyRemovedTag,
          alistGetD, alistGet, alistSet, listInsert, listRemove, ResolverState.init,
          List.dedup_cons_of_not_mem]
  constructor
  · simp only [genUpdate, hproc]
    simp [genUndeletePhase, iterChunks, iterChunksAux, genDrvChunks, genImpChunks,
          genMergePhase, genDeletedRevsPhase, genAddedTagsPhase, genRemovedTagsPhase,
          ResolverState.init, hex, List.filter_append, List.filter_cons, isTagOp,
          genArvPhase_filter_isTagOp env R arvPages env.seedTextId [] hnew]
  · simp only [genUpdate, hproc]
    simp [iterChunks, iterChunksAux, genDrvChunks, genImpChunks, genMergePhase,
          ResolverState.init]

theorem claim1_witness :
    ((genUpdate baseEnv2 [] [LogEvent.tagUpdate (some 5) ["T1"] [],
        LogEvent.tagUpdate (some 5) [] ["T1"],
        LogEvent.tagUpdate (some 5) ["T2"] []]).1.filter (isTagOp 5)
      = [Op.insertTaggedRevision 5 "T2"])
    ∧ (genUpdate baseEnv2 [] [LogEvent.tagUpdate (some 5) ["T1"] [],
        LogEvent.tagUpdate (some 5) [] ["T1"],
        LogEvent.tagUpdate (some 5) ["T2"] []]).2 = none :=
  claim1_tag_net_effect baseEnv2 [] 5 "T1" "T2"
    (fun p hp => absurd hp (List.not_mem_nil p)) rfl

end WsSync

namespace WsSync

/-! ### Claim C6: replay idempotence machinery -/

theorem applyOp_moveRevision_id (env : Env) (s : Replica) (pid : Nat) (h : archNone s) :
    applyOp env s (Op.moveRevision pid) = s := by
  refine Replica.ext rfl ?_ ?_ rfl rfl
  · funext k
    cases harch : s.archive k with
    | none => simp [applyOp, harch]
    | some a => simp [applyOp, harch, h k a harch]
  · funext k
    cases harch : s.archive k with
    | none => simp [applyOp, harch]
    | some a => simp [applyOp, harch, h k a harch]

theorem applyOp_moveTagged_id (env : Env) (s : Replica) (pid : Nat) (h : archNone s) :
    applyOp env s (Op.moveTaggedArchivedRevision pid) = s := by
  have hfalse : ∀ r, (match s.archive r with
      | some a => decide (a.ar_page_id = some pid)
      | none => false) = false := by
    intro r
    cases harch : s.archive r with
    | none => rfl
    | some a => simp [h r a harch]
  refine Replica.ext rfl rfl rfl ?_ ?_
  · funext r t
    simp [applyOp, hfalse r]
  · funext r t
    simp [applyOp, hfalse r]

theorem applyOp_updateArPageId_noMatch_id (env : Env) (s : Replica) (ns : Nat)
    (tb : TitleBind) (pid : Nat)
    (h : ∀ r a, s.archive r = some a →
        ¬(a.ar_namespace = ns ∧ titleMatches tb a.ar_title = true)) :
    applyOp env s (Op.updateArPageId ns tb pid) = s := by
  refine Replica.ext rfl rfl ?_ rfl rfl
  funext k
  cases harch : s.archive k with
  | none => simp [applyOp, harch]
  | some a => simp [applyOp, harch, h k a harch]

theorem applyOp_archive_cases (env : Env) (s : Replica) (op : Op)
    (hIn : opInert s op) :
    ∀ r a', (applyOp env s op).archive r = some a' →
      (∃ a, s.archive r = some a ∧ a'.ar_namespace = a.ar_namespace
          ∧ a'.ar_title = a.ar_title ∧ a'.ar_page_id = a.ar_page_id)
      ∨ (∃ rid row, op = Op.insertArchive rid row ∧ a' = row) := by
  cases op with
  | insertText old_id txt fl =>
    intro r a' h
    exact Or.inl ⟨a', h, rfl, rfl, rfl⟩
  | insertRevision rid row =>
    intro r a' h
    exact Or.inl ⟨a', h, rfl, rfl, rfl⟩
  | insertArchive rid row =>
    intro r a' h
    by_cases hr : r = rid
    · subst hr
      simp only [applyOp, if_pos rfl] at h
      cases hold : s.archive r with
      | none =>
        rw [hold] at h
        cases h
        exact Or.inr ⟨r, row, rfl, rfl⟩
      | some old =>
        rw [hold] at h
        cases h
        exact Or.inl ⟨old, rfl, rfl, rfl, rfl⟩
    · simp only [applyOp, if_neg hr] at h
      exact Or.inl ⟨a', h, rfl, rfl, rfl⟩
  | insertTaggedRevision rid tag =>
    intro r a' h
    exact Or.inl ⟨a', h, rfl, rfl, rfl⟩
  | insertTaggedArchivedRevision rid tag =>
    intro r a' h
    exact Or.inl ⟨a', h, rfl, rfl, rfl⟩
  | deleteTaggedRevision rid tag =>
    intro r a' h
    exact Or.inl ⟨a', h, rfl, rfl, rfl⟩
  | deleteTaggedArchivedRevision rid tag =>
    intro r a' h
    exact Or.inl ⟨a', h, rfl, rfl, rfl⟩
  | updateArPageId ns tb pid =>
    intro r a' h
    rw [applyOp_updateArPageId_noMatch_id env s ns tb pid hIn] at h
    exact Or.inl ⟨a', h, rfl, rfl, rfl⟩
  | moveTaggedArchivedRevision pid =>
    intro r a' h
    exact Or.inl ⟨a', h, rfl, rfl, rfl⟩
  | moveRevision pid =>
    intro r a' h
    cases hold : s.archive r with
    | none =>
      simp only [applyOp, hold] at h
      cases h
    | some a =>
      simp only [applyOp, hold] at h
      by_cases hp : a.ar_page_id = some pid
      · rw [if_pos hp] at h
        cases h
      · rw [if_neg hp] at h
        cases h
        exact Or.inl ⟨a', rfl, rfl, rfl, rfl⟩
  | mergeRevision src ns t mp =>
    intro r a' h
    exact Or.inl ⟨a', h, rfl, rfl, rfl⟩
  | updateRevDeleted rid b =>
    intro r a' h
    exact Or.inl ⟨a', h, rfl, rfl, rfl⟩
  | updateArDeleted rid b =>
    intro r a' h
    by_cases hr : r = rid
    · subst hr
      simp only [applyOp, if_pos rfl] at h
      cases hold : s.archive r with
      | none =>
        rw [hold] at h
        cases h
      | some old =>
        rw [hold] at h
        cases h
        exact Or.inl ⟨old, rfl, rfl, rfl, rfl⟩
    · simp only [applyOp, if_neg hr] at h
      exact Or.inl ⟨a', h, rfl, rfl, rfl⟩

theorem applyOp_archInert (env : Env) (L : List Op) (s : Replica) (op : Op)
    (hmem : op ∈ L) (hsafe : opSafe op)
    (hRT : ∀ o ∈ L, ∀ o' ∈ L, restoreTitleOk o o' = true)
    (h : archInert L s) : archInert L (applyOp env s op) := by
  obtain ⟨hN, hIn⟩ := h
  have hcases := applyOp_archive_cases env s op (hIn op hmem)
  constructor
  · intro r a' ha'
    rcases hcases r a' ha' with ⟨a, hold, _, _, hpid⟩ | ⟨rid, row, rfl, rfl⟩
    · rw [hpid]
      exact hN r a hold
    · exact hsafe
  · intro op' hmem'
    cases op' with
    | updateArPageId ns' tb' pid' =>
      intro r a' ha' hmatch
      rcases hcases r a' ha' with ⟨a, hold, hns, hti, _⟩ | ⟨rid, row, rfl, rfl⟩
      · exact (hIn _ hmem') r a hold (by rw [← hns, ← hti]; exact hmatch)
      · have hok := hRT _ hmem _ hmem'
        rw [restoreTitleOk] at hok
        exact (of_decide_eq_true hok) hmatch
    | insertText old_id txt fl => trivial
    | insertRevision rid row => trivial
    | insertArchive rid row => trivial
    | insertTaggedRevision rid tag => trivial
    | insertTaggedArchivedRevision rid tag => trivial
    | deleteTaggedRevision rid tag => trivial
    | deleteTaggedArchivedRevision rid tag => trivial
    | moveTaggedArchivedRevision pid => trivial
    | moveRevision pid => trivial
    | mergeRevision src ns t mp => trivial
    | updateRevDeleted rid b => trivial
    | updateArDeleted rid b => trivial

end WsSync

namespace WsSync

theorem applyOp_revision_proj (env : Env) (s : Replica) (op : Op) (r : Nat)
    (hsafe : opSafe op) (h : archNone s) (hIn : opInert s op) :
    (applyOp env s op).revision r =
      match revKProj env r op with
      | none => s.revision r
      | some k => revKStep (s.revision r) k := by
  cases op with
  | insertText old_id txt fl => simp [applyOp, revKProj]
  | insertRevision rid row =>
    by_cases hr : rid = r
    · subst hr
      cases hsr : s.revision rid <;> simp [applyOp, revKProj, revKStep, hsr]
    · simp [applyOp, revKProj, hr, Ne.symm hr]
  | insertArchive rid row => simp [applyOp, revKProj]
  | insertTaggedRevision rid tag => simp [applyOp, revKProj]
  | insertTaggedArchivedRevision rid tag => simp [applyOp, revKProj]
  | deleteTaggedRevision rid tag => simp [applyOp, revKProj]
  | deleteTaggedArchivedRevision rid tag => simp [applyOp, revKProj]
  | updateArPageId ns tb pid =>
    rw [applyOp_updateArPageId_noMatch_id env s ns tb pid hIn]
    simp [revKProj]
  | moveTaggedArchivedRevision pid =>
    rw [applyOp_moveTagged_id env s pid h]
    simp [revKProj]
  | moveRevision pid =>
    rw [applyOp_moveRevision_id env s pid h]
    simp [revKProj]
  | mergeRevision src ns t mp =>
    cases hsr : s.revision r <;> simp [applyOp, revKProj, revKStep, hsr]
  | updateRevDeleted rid b =>
    by_cases hr : rid = r
    · subst hr
      cases hsr : s.revision rid <;> simp [applyOp, revKProj, revKStep, hsr]
    · simp [applyOp, revKProj, hr, Ne.symm hr]
  | updateArDeleted rid b => simp [applyOp, revKProj]

theorem applyOp_archive_proj (env : Env) (s : Replica) (op : Op) (r : Nat)
    (hsafe : opSafe op) (h : archNone s) (hIn : opInert s op) :
    (applyOp env s op).archive r =
      match arKProj r op with
      | none => s.archive r
      | some k => arKStep (s.archive r) k := by
  cases op with
  | insertText old_id txt fl => simp [applyOp, arKProj]
  | insertRevision rid row => simp [applyOp, arKProj]
  | insertArchive rid row =>
    by_cases hr : rid = r
    · subst hr
      cases hsr : s.archive rid <;> simp [applyOp, arKProj, arKStep, hsr]
    · simp [applyOp, arKProj, hr, Ne.symm hr]
  | insertTaggedRevision rid tag => simp [applyOp, arKProj]
  | insertTaggedArchivedRevision rid tag => simp [applyOp, arKProj]
  | deleteTaggedRevision rid tag => simp [applyOp, arKProj]
  | deleteTaggedArchivedRevision rid tag => simp [applyOp, arKProj]
  | updateArPageId ns tb pid =>
    rw [applyOp_updateArPageId_noMatch_id env s ns tb pid hIn]
    simp [arKProj]
  | moveTaggedArchivedRevision pid =>
    rw [applyOp_moveTagged_id env s pid h]
    simp [arKProj]
  | moveRevision pid =>
    rw [applyOp_moveRevision_id env s pid h]
    simp [arKProj]
  | mergeRevision src ns t mp => simp [applyOp, arKProj]
  | updateRevDeleted rid b => simp [applyOp, arKProj]
  | updateArDeleted rid b =>
    by_cases hr : rid = r
    · subst hr
      cases hsr : s.archive rid <;> simp [applyOp, arKProj, arKStep, hsr]
    · simp [applyOp, arKProj, hr, Ne.symm hr]

theorem applyOp_text_proj (env : Env) (s : Replica) (op : Op) (k : Nat)
    (hsafe : opSafe op) (h : archNone s) :
    (applyOp env s op).text k =
      match textKProj k op with
      | none => s.text k
      | some w => some w := by
  cases op with
  | insertText old_id txt fl =>
    by_cases hk : old_id = k
    · subst hk
      simp [applyOp, textKProj]
    · simp [applyOp, textKProj, hk, Ne.symm hk]
  | insertRevision rid row => simp [applyOp, textKProj]
  | insertArchive rid row => simp [applyOp, textKProj]
  | insertTaggedRevision rid tag => simp [applyOp, textKProj]
  | insertTaggedArchivedRevision rid tag => simp [applyOp, textKProj]
  | deleteTaggedRevision rid tag => simp [applyOp, textKProj]
  | deleteTaggedArchivedRevision rid tag => simp [applyOp, textKProj]
  | updateArPageId ns tb pid => simp [applyOp, textKProj]
  | moveTaggedArchivedRevision pid => simp [applyOp, textKProj]
  | moveRevision pid => simp [applyOp, textKProj]
  | mergeRevision src ns t mp => simp [applyOp, textKProj]
  | updateRevDeleted rid b => simp [applyOp, textKProj]
  | updateArDeleted rid b => simp [applyOp, textKProj]

theorem applyOp_tgrev_proj (env : Env) (s : Replica) (op : Op) (r : Nat) (t : String)
    (hsafe : opSafe op) (h : archNone s) (hIn : opInert s op) :
    (applyOp env s op).tgrev r t =
      match tgrevKProj r t op with
      | none => s.tgrev r t
      | some b => b := by
  cases op with
  | insertText old_id txt fl => simp [applyOp, tgrevKProj]
  | insertRevision rid row => simp [applyOp, tgrevKProj]
  | insertArchive rid row => simp [applyOp, tgrevKProj]
  | insertTaggedRevision rid tag =>
    by_cases hc : rid = r ∧ tag = t
    · obtain ⟨h1, h2⟩ := hc
      subst h1
      subst h2
      simp [applyOp, tgrevKProj]
    · have hc' : ¬(r = rid ∧ t = tag) := fun hh => hc ⟨hh.1.symm, hh.2.symm⟩
      simp [applyOp, tgrevKProj, hc, hc']
  | insertTaggedArchivedRevision rid tag => simp [applyOp, tgrevKProj]
  | deleteTaggedRevision rid tag =>
    by_cases hc : rid = r ∧ tag = t
    · obtain ⟨h1, h2⟩ := hc
      subst h1
      subst h2
      simp [applyOp, tgrevKProj]
    · have hc' : ¬(r = rid ∧ t = tag) := fun hh => hc ⟨hh.1.symm, hh.2.symm⟩
      simp only [applyOp, tgrevKProj, if_neg hc, if_neg hc']
  | deleteTaggedArchivedRevision rid tag => simp [applyOp, tgrevKProj]
  | updateArPageId ns tb pid =>
    rw [applyOp_updateArPageId_noMatch_id env s ns tb pid hIn]
    simp [tgrevKProj]
  | moveTaggedArchivedRevision pid =>
    rw [applyOp_moveTagged_id env s pid h]
    simp [tgrevKProj]
  | moveRevision pid => simp [applyOp, tgrevKProj]
  | mergeRevision src ns tt mp => simp [applyOp, tgrevKProj]
  | updateRevDeleted rid b => simp [applyOp, tgrevKProj]
  | updateArDeleted rid b => simp [applyOp, tgrevKProj]

theorem applyOp_tgar_proj (env : Env) (s : Replica) (op : Op) (r : Nat) (t : String)
    (hsafe : opSafe op) (h : archNone s) (hIn : opInert s op) :
    (applyOp env s op).tgar r t =
      match tgarKProj r t op with
      | none => s.tgar r t
      | some b => b := by
  cases op with
  | insertText old_id txt fl => simp [applyOp, tgarKProj]
  | insertRevision rid row => simp [applyOp, tgarKProj]
  | insertArchive rid row => simp [applyOp, tgarKProj]
  | insertTaggedRevision rid tag => simp [applyOp, tgarKProj]
  | insertTaggedArchivedRevision rid tag =>
    by_cases hc : rid = r ∧ tag = t
    · obtain ⟨h1, h2⟩ := hc
      subst h1
      subst h2
      simp [applyOp, tgarKProj]
    · have hc' : ¬(r = rid ∧ t = tag) := fun hh => hc ⟨hh.1.symm, hh.2.symm⟩
      simp [applyOp, tgarKProj, hc, hc']
  | deleteTaggedRevision rid tag => simp [applyOp, tgarKProj]
  | deleteTaggedArchivedRevision rid tag =>
    by_cases hc : rid = r ∧ tag = t
    · obtain ⟨h1, h2⟩ := hc
      subst h1
      subst h2
      simp [applyOp, tgarKProj]
    · have hc' : ¬(r = rid ∧ t = tag) := fun hh => hc ⟨hh.1.symm, hh.2.symm⟩
      simp only [applyOp, tgarKProj, if_neg hc, if_neg hc']
  | updateArPageId ns tb pid =>
    rw [applyOp_updateArPageId_noMatch_id env s ns tb pid hIn]
    simp [tgarKProj]
  | moveTaggedArchivedRevision pid =>
    rw [applyOp_moveTagged_id env s pid h]
    simp [tgarKProj]
  | moveRevision pid => simp [applyOp, tgarKProj]
  | mergeRevision src ns tt mp => simp [applyOp, tgarKProj]
  | updateRevDeleted rid b => simp [applyOp, tgarKProj]
  | updateArDeleted rid b => simp [applyOp, tgarKProj]

end WsSync

namespace WsSync

theorem applyOps_proj (env : Env) (L0 : List Op)
    (hRT : ∀ o ∈ L0, ∀ o' ∈ L0, restoreTitleOk o o' = true) :
    ∀ (L : List Op), (∀ op ∈ L, op ∈ L0) → (∀ op ∈ L, opSafe op) →
      ∀ s : Replica, archInert L0 s →
      archInert L0 (applyOps env s L)
      ∧ (∀ r, (applyOps env s L).revision r
            = (L.filterMap (revKProj env r)).foldl revKStep (s.revision r))
      ∧ (∀ r, (applyOps env s L).archive r
            = (L.filterMap (arKProj r)).foldl arKStep (s.archive r))
      ∧ (∀ k, (applyOps env s L).text k
            = (L.filterMap (textKProj k)).foldl (fun _ w => some w) (s.text k))
      ∧ (∀ r t, (applyOps env s L).tgrev r t
            = (L.filterMap (tgrevKProj r t)).foldl (fun _ b => b) (s.tgrev r t))
      ∧ (∀ r t, (applyOps env s L).tgar r t
            = (L.filterMap (tgarKProj r t)).foldl (fun _ b => b) (s.tgar r t)) := by
  intro L
  induction L with
  | nil =>
    intro _ _ s h
    exact ⟨h, fun r => rfl, fun r => rfl, fun k => rfl, fun r t => rfl, fun r t => rfl⟩
  | cons op L ih =>
    intro hsub hsafe s h
    have hmem0 : op ∈ L0 := hsub op (List.mem_cons_self op L)
    have hop : opSafe op := hsafe op (List.mem_cons_self op L)
    have hsub' : ∀ o ∈ L, o ∈ L0 := fun o ho => hsub o (List.mem_cons_of_mem op ho)
    have hL : ∀ o ∈ L, opSafe o := fun o ho => hsafe o (List.mem_cons_of_mem op ho)
    have hN : archNone s := h.1
    have hIn : opInert s op := h.2 op hmem0
    have h1 : archInert L0 (applyOp env s op) :=
      applyOp_archInert env L0 s op hmem0 hop hRT h
    obtain ⟨ha, hrev, harch, htext, htgrev, htgar⟩ := ih hsub' hL (applyOp env s op) h1
    have hstep : applyOps env s (op :: L) = applyOps env (applyOp env s op) L := rfl
    refine ⟨by rw [hstep]; exact ha, ?_, ?_, ?_, ?_, ?_⟩
    · intro r
      rw [hstep, hrev r, applyOp_revision_proj env s op r hop hN hIn]
      cases hk : revKProj env r op <;> simp [List.filterMap_cons, hk]
    · intro r
      rw [hstep, harch r, applyOp_archive_proj env s op r hop hN hIn]
      cases hk : arKProj r op <;> simp [List.filterMap_cons, hk]
    · intro k
      rw [hstep, htext k, applyOp_text_proj env s op k hop hN]
      cases hk : textKProj k op <;> simp [List.filterMap_cons, hk]
    · intro r t
      rw [hstep, htgrev r t, applyOp_tgrev_proj env s op r t hop hN hIn]
      cases hk : tgrevKProj r t op <;> simp [List.filterMap_cons, hk]
    · intro r t
      rw [hstep, htgar r t, applyOp_tgar_proj env s op r t hop hN hIn]
      cases hk : tgarKProj r t op <;> simp [List.filterMap_cons, hk]

theorem constWrite_replay {α β : Type} (g : β → α → β) (hg : ∀ v w a, g v a = g w a)
    (xs : List α) (v : β) : xs.foldl g (xs.foldl g v) = xs.foldl g v := by
  cases xs with
  | nil => rfl
  | cons a l =>
    simp only [List.foldl_cons]
    rw [hg (List.foldl g (g v a) l) v a]

theorem revKfold_none (K : List (RowKOp RevRow))
    (h : ∀ x ∈ K, ∀ row, x ≠ RowKOp.ins row) : K.foldl revKStep none = none := by
  induction K with
  | nil => rfl
  | cons x K ih =>
    cases x with
    | ins row => exact absurd rfl (h _ (List.mem_cons_self _ _) row)
    | upd b =>
      simp only [List.foldl_cons, revKStep]
      exact ih (fun y hy => h y (List.mem_cons_of_mem _ hy))
    | mrg s d mp =>
      simp only [List.foldl_cons, revKStep]
      exact ih (fun y hy => h y (List.mem_cons_of_mem _ hy))

theorem arKfold_none (K : List (RowKOp ArRow))
    (h : ∀ x ∈ K, ∀ row, x ≠ RowKOp.ins row) : K.foldl arKStep none = none := by
  induction K with
  | nil => rfl
  | cons x K ih =>
    cases x with
    | ins row => exact absurd rfl (h _ (List.mem_cons_self _ _) row)
    | upd b =>
      simp only [List.foldl_cons, arKStep]
      exact ih (fun y hy => h y (List.mem_cons_of_mem _ hy))
    | mrg s d mp =>
      simp only [List.foldl_cons, arKStep]
      exact ih (fun y hy => h y (List.mem_cons_of_mem _ hy))

theorem revKStep_some (r : RevRow) (x : RowKOp RevRow) :
    revKStep (some r) x = some (revRowStep r x) := by
  cases x with
  | ins row => rfl
  | upd b => rfl
  | mrg s d mp =>
    by_cases hc : r.rev_page = some s ∧ r.rev_timestamp ≤ mp
    · simp only [revKStep, revRowStep, if_pos hc]
    · simp only [revKStep, revRowStep, if_neg hc]

theorem arKStep_some (r : ArRow) (x : RowKOp ArRow) :
    arKStep (some r) x = some (arRowStep r x) := by
  cases x <;> rfl

theorem revKfold_some (K : List (RowKOp RevRow)) :
    ∀ r : RevRow, K.foldl revKStep (some r) = some (K.foldl revRowStep r) := by
  induction K with
  | nil => intro r; rfl
  | cons x K ih =>
    intro r
    simp only [List.foldl_cons, revKStep_some]
    exact ih (revRowStep r x)

theorem arKfold_some (K : List (RowKOp ArRow)) :
    ∀ r : ArRow, K.foldl arKStep (some r) = some (K.foldl arRowStep r) := by
  induction K with
  | nil => intro r; rfl
  | cons x K ih =>
    intro r
    simp only [List.foldl_cons, arKStep_some]
    exact ih (arRowStep r x)

end WsSync

namespace WsSync

theorem revRowFold_char :
    ∀ (K : List (RowKOp RevRow)) (r : RevRow),
      K.foldl revRowStep r =
        { r with rev_text_id := revFoldTid K r.rev_text_id,
                 rev_deleted := revFoldDel K r.rev_deleted,
                 rev_page := revFoldPage r.rev_timestamp K r.rev_page } := by
  intro K
  induction K with
  | nil => intro r; rfl
  | cons x K ih =>
    intro r
    rw [List.foldl_cons, ih (revRowStep r x)]
    cases x with
    | ins row => rfl
    | upd b => rfl
    | mrg s d mp =>
      by_cases hc : r.rev_page = some s ∧ r.rev_timestamp ≤ mp
      · simp only [revRowStep, if_pos hc, revFoldTid, revFoldDel, revFoldPage]
      · simp only [revRowStep, if_neg hc, revFoldTid, revFoldDel, revFoldPage]

theorem arRowFold_char :
    ∀ (K : List (RowKOp ArRow)) (r : ArRow),
      K.foldl arRowStep r =
        { r with ar_text_id := arFoldTid K r.ar_text_id,
                 ar_deleted := arFoldDel K r.ar_deleted } := by
  intro K
  induction K with
  | nil => intro r; rfl
  | cons x K ih =>
    intro r
    rw [List.foldl_cons, ih (arRowStep r x)]
    cases x with
    | ins row => rfl
    | upd b => rfl
    | mrg s d mp => rfl

theorem revFoldTid_append :
    ∀ (K1 K2 : List (RowKOp RevRow)) (t : Option Nat),
      revFoldTid (K1 ++ K2) t = revFoldTid K2 (revFoldTid K1 t) := by
  intro K1
  induction K1 with
  | nil => intro K2 t; rfl
  | cons x K ih =>
    intro K2 t
    cases x <;> (simp only [List.cons_append, revFoldTid]; exact ih _ _)

theorem revFoldDel_append :
    ∀ (K1 K2 : List (RowKOp RevRow)) (d : Nat),
      revFoldDel (K1 ++ K2) d = revFoldDel K2 (revFoldDel K1 d) := by
  intro K1
  induction K1 with
  | nil => intro K2 d; rfl
  | cons x K ih =>
    intro K2 d
    cases x <;> (simp only [List.cons_append, revFoldDel]; exact ih _ _)

theorem revFoldPage_append (ts : Nat) :
    ∀ (K1 K2 : List (RowKOp RevRow)) (p : Option Nat),
      revFoldPage ts (K1 ++ K2) p = revFoldPage ts K2 (revFoldPage ts K1 p) := by
  intro K1
  induction K1 with
  | nil => intro K2 p; rfl
  | cons x K ih =>
    intro K2 p
    cases x <;> (simp only [List.cons_append, revFoldPage]; exact ih _ _)

theorem arFoldTid_append :
    ∀ (K1 K2 : List (RowKOp ArRow)) (t : Option Nat),
      arFoldTid (K1 ++ K2) t = arFoldTid K2 (arFoldTid K1 t) := by
  intro K1
  induction K1 with
  | nil => intro K2 t; rfl
  | cons x K ih =>
    intro K2 t
    cases x <;> (simp only [List.cons_append, arFoldTid]; exact ih _ _)

theorem arFoldDel_append :
    ∀ (K1 K2 : List (RowKOp ArRow)) (d : Nat),
      arFoldDel (K1 ++ K2) d = arFoldDel K2 (arFoldDel K1 d) := by
  intro K1
  induction K1 with
  | nil => intro K2 d; rfl
  | cons x K ih =>
    intro K2 d
    cases x <;> (simp only [List.cons_append, arFoldDel]; exact ih _ _)

theorem revFoldTid_no_ins :
    ∀ (K : List (RowKOp RevRow)), (∀ x ∈ K, ∀ row, x ≠ RowKOp.ins row) →
      ∀ t, revFoldTid K t = t := by
  intro K
  induction K with
  | nil => intro _ t; rfl
  | cons x K ih =>
    intro h t
    cases x with
    | ins row => exact absurd rfl (h _ (List.mem_cons_self _ _) row)
    | upd b => exact ih (fun y hy => h y (List.mem_cons_of_mem _ hy)) t
    | mrg s d mp => exact ih (fun y hy => h y (List.mem_cons_of_mem _ hy)) t

theorem revFoldDel_no_upd :
    ∀ (K : List (RowKOp RevRow)), (∀ x ∈ K, ∀ b, x ≠ RowKOp.upd b) →
      ∀ d, revFoldDel K d = d := by
  intro K
  induction K with
  | nil => intro _ d; rfl
  | cons x K ih =>
    intro h d
    cases x with
    | ins row => exact ih (fun y hy => h y (List.mem_cons_of_mem _ hy)) d
    | upd b => exact absurd rfl (h _ (List.mem_cons_self _ _) b)
    | mrg s dd mp => exact ih (fun y hy => h y (List.mem_cons_of_mem _ hy)) d

theorem revFoldPage_no_mrg (ts : Nat) :
    ∀ (K : List (RowKOp RevRow)), (∀ x ∈ K, ∀ s d mp, x ≠ RowKOp.mrg s d mp) →
      ∀ p, revFoldPage ts K p = p := by
  intro K
  induction K with
  | nil => intro _ p; rfl
  | cons x K ih =>
    intro h p
    cases x with
    | ins row => exact ih (fun y hy => h y (List.mem_cons_of_mem _ hy)) p
    | upd b => exact ih (fun y hy => h y (List.mem_cons_of_mem _ hy)) p
    | mrg s d mp => exact absurd rfl (h _ (List.mem_cons_self _ _) s d mp)

theorem arFoldTid_no_ins :
    ∀ (K : List (RowKOp ArRow)), (∀ x ∈ K, ∀ row, x ≠ RowKOp.ins row) →
      ∀ t, arFoldTid K t = t := by
  intro K
  induction K with
  | nil => intro _ t; rfl
  | cons x K ih =>
    intro h t
    cases x with
    | ins row => exact absurd rfl (h _ (List.mem_cons_self _ _) row)
    | upd b => exact ih (fun y hy => h y (List.mem_cons_of_mem _ hy)) t
    | mrg s d mp => exact ih (fun y hy => h y (List.mem_cons_of_mem _ hy)) t

theorem arFoldDel_no_upd :
    ∀ (K : List (RowKOp ArRow)), (∀ x ∈ K, ∀ b, x ≠ RowKOp.upd b) →
      ∀ d, arFoldDel K d = d := by
  intro K
  induction K with
  | nil => intro _ d; rfl
  | cons x K ih =>
    intro h d
    cases x with
    | ins row => exact ih (fun y hy => h y (List.mem_cons_of_mem _ hy)) d
    | upd b => exact absurd rfl (h _ (List.mem_cons_self _ _) b)
    | mrg s dd mp => exact ih (fun y hy => h y (List.mem_cons_of_mem _ hy)) d

theorem revFoldPage_disj (ts : Nat) :
    ∀ (M : List (RowKOp RevRow)) (p : Option Nat),
      revFoldPage ts M p = p
      ∨ ∃ s d mp, RowKOp.mrg s d mp ∈ M ∧ revFoldPage ts M p = d := by
  intro M
  induction M with
  | nil => intro p; exact Or.inl rfl
  | cons x K ih =>
    intro p
    cases x with
    | ins row =>
      rcases ih p with he | ⟨s, d, mp, hm, he⟩
      · exact Or.inl he
      · exact Or.inr ⟨s, d, mp, List.mem_cons_of_mem _ hm, he⟩
    | upd b =>
      rcases ih p with he | ⟨s, d, mp, hm, he⟩
      · exact Or.inl he
      · exact Or.inr ⟨s, d, mp, List.mem_cons_of_mem _ hm, he⟩
    | mrg src dest mp =>
      by_cases hc : p = some src ∧ ts ≤ mp
      · simp only [revFoldPage, if_pos hc]
        rcases ih dest with he | ⟨s, d, mp', hm, he⟩
        · exact Or.inr ⟨src, dest, mp, List.mem_cons_self _ _, he⟩
        · exact Or.inr ⟨s, d, mp', List.mem_cons_of_mem _ hm, he⟩
      · simp only [revFoldPage, if_neg hc]
        rcases ih p with he | ⟨s, d, mp', hm, he⟩
        · exact Or.inl he
        · exact Or.inr ⟨s, d, mp', List.mem_cons_of_mem _ hm, he⟩

theorem revFoldPage_no_fire (ts : Nat) :
    ∀ (M : List (RowKOp RevRow)) (p : Option Nat),
      (∀ s d mp, RowKOp.mrg s d mp ∈ M → ¬(p = some s ∧ ts ≤ mp)) →
      revFoldPage ts M p = p := by
  intro M
  induction M with
  | nil => intro p _; rfl
  | cons x K ih =>
    intro p h
    cases x with
    | ins row => exact ih p (fun s d mp hm => h s d mp (List.mem_cons_of_mem _ hm))
    | upd b => exact ih p (fun s d mp hm => h s d mp (List.mem_cons_of_mem _ hm))
    | mrg src dest mp =>
      have hc : ¬(p = some src ∧ ts ≤ mp) := h src dest mp (List.mem_cons_self _ _)
      simp only [revFoldPage, if_neg hc]
      exact ih p (fun s d mp' hm => h s d mp' (List.mem_cons_of_mem _ hm))

theorem revFoldPage_replay (ts : Nat) (M : List (RowKOp RevRow))
    (hchain : ∀ s d mp, RowKOp.mrg s d mp ∈ M →
        ∀ s' d' mp', RowKOp.mrg s' d' mp' ∈ M → d ≠ some s')
    (p : Option Nat) :
    revFoldPage ts M (revFoldPage ts M p) = revFoldPage ts M p := by
  apply revFoldPage_no_fire
  intro src dest mp hm hcond
  obtain ⟨M₁, M₂, rfl⟩ := List.append_of_mem hm
  rw [revFoldPage_append] at hcond
  have hq : revFoldPage ts (RowKOp.mrg src dest mp :: M₂) (revFoldPage ts M₁ p)
      = some src := hcond.1
  by_cases hc : revFoldPage ts M₁ p = some src ∧ ts ≤ mp
  · rw [show revFoldPage ts (RowKOp.mrg src dest mp :: M₂) (revFoldPage ts M₁ p)
        = revFoldPage ts M₂ dest by simp only [revFoldPage, if_pos hc]] at hq
    rcases revFoldPage_disj ts M₂ dest with he | ⟨s', d', mp', hm', he⟩
    · rw [he] at hq
      exact hchain src dest mp hm src dest mp hm hq
    · rw [he] at hq
      exact hchain s' d' mp'
        (by simp [List.mem_append, List.mem_cons]; right; right; exact hm')
        src dest mp hm hq
  · rw [show revFoldPage ts (RowKOp.mrg src dest mp :: M₂) (revFoldPage ts M₁ p)
        = revFoldPage ts M₂ (revFoldPage ts M₁ p) by simp only [revFoldPage, if_neg hc]] at hq
    rcases revFoldPage_disj ts M₂ (revFoldPage ts M₁ p) with he | ⟨s', d', mp', hm', he⟩
    · rw [he] at hq
      exact hc ⟨hq, hcond.2⟩
    · rw [he] at hq
      exact hchain s' d' mp'
        (by simp [List.mem_append, List.mem_cons]; right; right; exact hm')
        src dest mp hm hq

end WsSync

namespace WsSync

theorem revFoldDel_all_upd_replay (U : List (RowKOp RevRow))
    (hU : ∀ x ∈ U, ∃ b, x = RowKOp.upd b) (d : Nat) :
    revFoldDel U (revFoldDel U d) = revFoldDel U d := by
  cases U with
  | nil => rfl
  | cons u U' =>
    obtain ⟨b, rfl⟩ := hU u (List.mem_cons_self _ _)
    rfl

theorem arFoldDel_all_upd_replay (U : List (RowKOp ArRow))
    (hU : ∀ x ∈ U, ∃ b, x = RowKOp.upd b) (d : Nat) :
    arFoldDel U (arFoldDel U d) = arFoldDel U d := by
  cases U with
  | nil => rfl
  | cons u U' =>
    obtain ⟨b, rfl⟩ := hU u (List.mem_cons_self _ _)
    rfl

theorem revK_replay (I M U : List (RowKOp RevRow))
    (hI : ∀ x ∈ I, ∃ row, x = RowKOp.ins row)
    (hM : ∀ x ∈ M, ∃ s d mp, x = RowKOp.mrg s d mp)
    (hU : ∀ x ∈ U, ∃ b, x = RowKOp.upd b)
    (hchain : ∀ s d mp, RowKOp.mrg s d mp ∈ M →
        ∀ s' d' mp', RowKOp.mrg s' d' mp' ∈ M → d ≠ some s') :
    (I ++ M ++ U).foldl revKStep ((I ++ M ++ U).foldl revKStep none)
      = (I ++ M ++ U).foldl revKStep none := by
  have hMnoIns : ∀ x ∈ M, ∀ row, x ≠ RowKOp.ins row := by
    intro x hx row hxe
    obtain ⟨s, d, mp, rfl⟩ := hM x hx
    cases hxe
  have hUnoIns : ∀ x ∈ U, ∀ row, x ≠ RowKOp.ins row := by
    intro x hx row hxe
    obtain ⟨b, rfl⟩ := hU x hx
    cases hxe
  have hMnoUpd : ∀ x ∈ M, ∀ b, x ≠ RowKOp.upd b := by
    intro x hx b hxe
    obtain ⟨s, d, mp, rfl⟩ := hM x hx
    cases hxe
  have hUnoMrg : ∀ x ∈ U, ∀ s d mp, x ≠ RowKOp.mrg s d mp := by
    intro x hx s d mp hxe
    obtain ⟨b, rfl⟩ := hU x hx
    cases hxe
  cases I with
  | nil =>
    have hnone : ((([] : List (RowKOp RevRow)) ++ M ++ U)).foldl revKStep none = none := by
      apply revKfold_none
      intro x hx row hxe
      rcases List.mem_append.1 (by simpa using hx) with hxM | hxU
      · exact hMnoIns x hxM row hxe
      · exact hUnoIns x hxU row hxe
    rw [hnone]
    exact hnone
  | cons x I' =>
    obtain ⟨row₀, rfl⟩ := hI x (List.mem_cons_self x I')
    have hI' : ∀ y ∈ I', ∃ row, y = RowKOp.ins row :=
      fun y hy => hI y (List.mem_cons_of_mem _ hy)
    have hInoMrg : ∀ x ∈ I', ∀ s d mp, x ≠ RowKOp.mrg s d mp := by
      intro x hx s d mp hxe
      obtain ⟨row, rfl⟩ := hI' x hx
      cases hxe
    have hInoUpd : ∀ x ∈ I', ∀ b, x ≠ RowKOp.upd b := by
      intro x hx b hxe
      obtain ⟨row, rfl⟩ := hI' x hx
      cases hxe
    have htidM : ∀ t, revFoldTid M t = t := revFoldTid_no_ins M hMnoIns
    have htidU : ∀ t, revFoldTid U t = t := revFoldTid_no_ins U hUnoIns
    have hdelI : ∀ d, revFoldDel I' d = d := revFoldDel_no_upd I' hInoUpd
    have hdelM : ∀ d, revFoldDel M d = d := revFoldDel_no_upd M hMnoUpd
    have hpageI : ∀ p, revFoldPage row₀.rev_timestamp I' p = p :=
      revFoldPage_no_mrg _ I' hInoMrg
    have hpageU : ∀ p, revFoldPage row₀.rev_timestamp U p = p :=
      revFoldPage_no_mrg _ U hUnoMrg
    have hpass1 : ((RowKOp.ins row₀ :: I') ++ M ++ U).foldl revKStep none
        = some ((I' ++ M ++ U).foldl revRowStep row₀) := by
      simp only [List.cons_append, List.foldl_cons]
      exact revKfold_some _ row₀
    rw [hpass1]
    simp only [List.cons_append, List.foldl_cons]
    rw [show revKStep (some ((I' ++ M ++ U).foldl revRowStep row₀)) (RowKOp.ins row₀)
        = some { (I' ++ M ++ U).foldl revRowStep row₀ with rev_text_id := row₀.rev_text_id }
        from rfl]
    rw [revKfold_some]
    congr 1
    simp only [revRowFold_char]
    simp only [revFoldTid_append, revFoldDel_append, revFoldPage_append,
               htidM, htidU, hdelI, hdelM, hpageI, hpageU]
    rw [revFoldDel_all_upd_replay U hU, revFoldPage_replay row₀.rev_timestamp M hchain]

theorem arK_replay (I U : List (RowKOp ArRow))
    (hI : ∀ x ∈ I, ∃ row, x = RowKOp.ins row)
    (hU : ∀ x ∈ U, ∃ b, x = RowKOp.upd b) :
    (I ++ U).foldl arKStep ((I ++ U).foldl arKStep none)
      = (I ++ U).foldl arKStep none := by
  have hUnoIns : ∀ x ∈ U, ∀ row, x ≠ RowKOp.ins row := by
    intro x hx row hxe
    obtain ⟨b, rfl⟩ := hU x hx
    cases hxe
  cases I with
  | nil =>
    have hnone : ((([] : List (RowKOp ArRow)) ++ U)).foldl arKStep none = none := by
      apply arKfold_none
      intro x hx row hxe
      exact hUnoIns x (by simpa using hx) row hxe
    rw [hnone]
    exact hnone
  | cons x I' =>
    obtain ⟨row₀, rfl⟩ := hI x (List.mem_cons_self x I')
    have hI' : ∀ y ∈ I', ∃ row, y = RowKOp.ins row :=
      fun y hy => hI y (List.mem_cons_of_mem _ hy)
    have hInoUpd : ∀ x ∈ I', ∀ b, x ≠ RowKOp.upd b := by
      intro x hx b hxe
      obtain ⟨row, rfl⟩ := hI' x hx
      cases hxe
    have htidU : ∀ t, arFoldTid U t = t := arFoldTid_no_ins U hUnoIns
    have hdelI : ∀ d, arFoldDel I' d = d := arFoldDel_no_upd I' hInoUpd
    have hpass1 : ((RowKOp.ins row₀ :: I') ++ U).foldl arKStep none
        = some ((I' ++ U).foldl arRowStep row₀) := by
      simp only [List.cons_append, List.foldl_cons]
      exact arKfold_some _ row₀
    rw [hpass1]
    simp only [List.cons_append, List.foldl_cons]
    rw [show arKStep (some ((I' ++ U).foldl arRowStep row₀)) (RowKOp.ins row₀)
        = some { (I' ++ U).foldl arRowStep row₀ with ar_text_id := row₀.ar_text_id }
        from rfl]
    rw [arKfold_some]
    congr 1
    simp only [arRowFold_char]
    simp only [arFoldTid_append, arFoldDel_append, htidU, hdelI]
    rw [arFoldDel_all_upd_replay U hU]

end WsSync

namespace WsSync

theorem genRevisionsAux_class (wc : Bool) (pid : Option Nat) :
    ∀ (revs : List Revision) (v : Nat), ∀ op ∈ (genRevisionsAux wc pid revs v).1,
      preMergeOp op ∧ opSafe op := by
  intro revs
  induction revs with
  | nil =>
    intro v op hop
    simp [genRevisionsAux] at hop
  | cons rev rest ih =>
    intro v op hop
    simp only [genRevisionsAux, List.mem_append, List.mem_cons, List.mem_map] at hop
    rcases hop with (htext | rfl | ⟨t, ht, rfl⟩) | hrest
    · cases wc with
      | false => simp at htext
      | true =>
        simp at htext
        subst htext
        exact ⟨trivial, trivial⟩
    · exact ⟨trivial, trivial⟩
    · exact ⟨trivial, trivial⟩
    · exact ih _ op hrest

theorem genDeletedRevisionsAux_class (wc : Bool) (ns : Nat) (dbtitle : String) :
    ∀ (revs : List Revision) (v : Nat), ∀ op ∈ (genDeletedRevisionsAux wc ns dbtitle revs v).1,
      preMergeOp op ∧ opSafe op := by
  intro revs
  induction revs with
  | nil =>
    intro v op hop
    simp [genDeletedRevisionsAux] at hop
  | cons rev rest ih =>
    intro v op hop
    simp only [genDeletedRevisionsAux, List.mem_append, List.mem_cons, List.mem_map] at hop
    rcases hop with (htext | rfl | ⟨t, ht, rfl⟩) | hrest
    · cases wc with
      | false => simp at htext
      | true =>
        simp at htext
        subst htext
        exact ⟨trivial, trivial⟩
    · exact ⟨trivial, rfl⟩
    · exact ⟨trivial, trivial⟩
    · exact ih _ op hrest

theorem genArvPhase_class (env : Env) :
    ∀ (ps : List Page) (v : Nat) (nr : List Nat), ∀ op ∈ (genArvPhase env ps v nr).1,
      preMergeOp op ∧ opSafe op := by
  intro ps
  induction ps with
  | nil =>
    intro v nr op hop
    simp [genArvPhase] at hop
  | cons p rest ih =>
    intro v nr op hop
    rcases List.mem_append.1 hop with h | h
    · exact genRevisionsAux_class env.withContent p.pageid p.revisions v op h
    · exact ih _ _ op h

theorem genUndeletePhase_class (env : Env) :
    ∀ (und : List (String × Nat)), ∀ op ∈ genUndeletePhase env und,
      preMergeOp op ∧ opSafe op := by
  intro und
  induction und with
  | nil =>
    intro op hop
    simp [genUndeletePhase] at hop
  | cons p rest ih =>
    intro op hop
    rcases List.mem_cons.1 hop with rfl | hop
    · exact ⟨trivial, ⟨[env.titleDb p.1], rfl⟩⟩
    · rcases List.mem_cons.1 hop with rfl | hop
      · exact ⟨trivial, trivial⟩
      · rcases List.mem_cons.1 hop with rfl | hop
        · exact ⟨trivial, trivial⟩
        · exact ih op hop

theorem genDrvPages_class (env : Env) :
    ∀ (ps : List ApiPage) (v : Nat) (nr : List Nat), ∀ op ∈ (genDrvPages env ps v nr).1,
      preMergeOp op ∧ opSafe op := by
  intro ps
  induction ps with
  | nil =>
    intro v nr op hop
    simp [genDrvPages] at hop
  | cons p rest ih =>
    intro v nr op hop
    by_cases hemp : p.deletedrevisions.isEmpty
    · rw [genDrvPages, if_pos hemp] at hop
      exact ih _ _ op hop
    · rw [genDrvPages, if_neg hemp] at hop
      rcases List.mem_append.1 hop with h | h
      · exact genDeletedRevisionsAux_class env.withContent p.ns (env.titleDb p.title)
          p.deletedrevisions v op h
      · exact ih _ _ op h

theorem genDrvChunks_class (env : Env) :
    ∀ (chunks : List (List String)) (v : Nat) (nr : List Nat),
      ∀ op ∈ (genDrvChunks env chunks v nr).1, preMergeOp op ∧ opSafe op := by
  intro chunks
  induction chunks with
  | nil =>
    intro v nr op hop
    simp [genDrvChunks] at hop
  | cons chunk rest ih =>
    intro v nr op hop
    by_cases hcont : (env.drvCall chunk).drvcontinue
    · rw [genDrvChunks, if_pos hcont] at hop
      simp at hop
    · rw [genDrvChunks, if_neg hcont] at hop
      rcases List.mem_append.1 hop with h | h
      · exact genDrvPages_class env _ _ _ op h
      · exact ih _ _ op h

theorem genImpPages_class (env : Env) :
    ∀ (ps : List ApiPage) (v : Nat) (nr : List Nat), ∀ op ∈ (genImpPages env ps v nr).1,
      preMergeOp op ∧ opSafe op := by
  intro ps
  induction ps with
  | nil =>
    intro v nr op hop
    simp [genImpPages] at hop
  | cons p rest ih =>
    intro v nr op hop
    rw [genImpPages] at hop
    rcases List.mem_append.1 hop with h | h
    · rcases List.mem_append.1 h with h1 | h2
      · by_cases hemp : p.revisions.isEmpty
        · rw [if_pos hemp] at h1
          simp at h1
        · rw [if_neg hemp] at h1
          exact genRevisionsAux_class env.withContent p.pageid p.revisions v op h1
      · by_cases hemp : p.deletedrevisions.isEmpty
        · rw [if_pos hemp] at h2
          simp at h2
        · rw [if_neg hemp] at h2
          exact genDeletedRevisionsAux_class env.withContent p.ns (env.titleDb p.title)
            p.deletedrevisions _ op h2
    · exact ih _ _ op h

theorem genImpChunks_class (env : Env) :
    ∀ (chunks : List (List Nat)) (v : Nat) (nr : List Nat),
      ∀ op ∈ (genImpChunks env chunks v nr).1, preMergeOp op ∧ opSafe op := by
  intro chunks
  induction chunks with
  | nil =>
    intro v nr op hop
    simp [genImpChunks] at hop
  | cons chunk rest ih =>
    intro v nr op hop
    by_cases hcont : ((env.impCall chunk).rvcontinue || (env.impCall chunk).drvcontinue) = true
    · rw [genImpChunks, if_pos hcont] at hop
      simp at hop
    · rw [genImpChunks, if_neg hcont] at hop
      rcases List.mem_append.1 hop with h | h
      · exact genImpPages_class env _ _ _ op h
      · exact ih _ _ op h

theorem genMergePhase_class (moved : List Nat) :
    ∀ (merged : List (Nat × MergeParams)), ∀ op ∈ (genMergePhase moved merged).1,
      isMergeOp op ∧ opSafe op := by
  intro merged
  induction merged with
  | nil =>
    intro op hop
    simp [genMergePhase] at hop
  | cons p rest ih =>
    intro op hop
    by_cases hmv : p.1 ∈ moved
    · rw [genMergePhase, if_pos hmv] at hop
      simp at hop
    · rw [genMergePhase, if_neg hmv] at hop
      rcases List.mem_cons.1 hop with rfl | hop
      · exact ⟨trivial, trivial⟩
      · exact ih op hop

theorem genDeletedRevsPhase_class :
    ∀ (dr : List (Nat × Nat)), ∀ op ∈ genDeletedRevsPhase dr,
      postMergeOp op ∧ opSafe op := by
  intro dr
  induction dr with
  | nil =>
    intro op hop
    simp [genDeletedRevsPhase] at hop
  | cons p rest ih =>
    intro op hop
    rcases List.mem_cons.1 hop with rfl | hop
    · exact ⟨trivial, trivial⟩
    · rcases List.mem_cons.1 hop with rfl | hop
      · exact ⟨trivial, trivial⟩
      · exact ih op hop

theorem genAddedTagsPhase_class (env : Env) :
    ∀ (at_ : List (Nat × List String)), ∀ op ∈ genAddedTagsPhase env at_,
      postMergeOp op ∧ opSafe op := by
  intro at_
  induction at_ with
  | nil =>
    intro op hop
    simp [genAddedTagsPhase] at hop
  | cons p rest ih =>
    intro op hop
    rcases List.mem_append.1 hop with h | h
    · obtain ⟨t, ht, rfl⟩ := List.mem_map.1 h
      by_cases hex : env.revExists p.1
      · simp only [if_pos hex]
        exact ⟨trivial, trivial⟩
      · simp only [if_neg hex]
        exact ⟨trivial, trivial⟩
    · exact ih op h

theorem genRemovedTagsPhase_class :
    ∀ (rt : List (Nat × List String)), ∀ op ∈ genRemovedTagsPhase rt,
      postMergeOp op ∧ opSafe op := by
  intro rt
  induction rt with
  | nil =>
    intro op hop
    simp [genRemovedTagsPhase] at hop
  | cons p rest ih =>
    intro op hop
    have haux : ∀ (tags : List String) (acc : List Op),
        (∀ o ∈ acc, postMergeOp o ∧ opSafe o) →
        op ∈ tags.foldr (fun t a =>
            Op.deleteTaggedRevision p.1 t :: Op.deleteTaggedArchivedRevision p.1 t :: a) acc →
        postMergeOp op ∧ opSafe op := by
      intro tags
      induction tags with
      | nil => intro acc hacc hmem; exact hacc op hmem
      | cons t ts iht =>
        intro acc hacc hmem
        rcases List.mem_cons.1 hmem with rfl | hmem
        · exact ⟨trivial, trivial⟩
        · rcases List.mem_cons.1 hmem with rfl | hmem
          · exact ⟨trivial, trivial⟩
          · exact iht acc hacc hmem
    exact haux p.2 (genRemovedTagsPhase rest) (fun o ho => ih o ho) hop

theorem genUpdate_split (env : Env) (arvPages : List Page) (les : List LogEvent) :
    ∃ A B C, (genUpdate env arvPages les).1 = A ++ B ++ C
      ∧ (∀ op ∈ A, preMergeOp op ∧ opSafe op)
      ∧ (∀ op ∈ B, isMergeOp op ∧ opSafe op)
      ∧ (∀ op ∈ C, postMergeOp op ∧ opSafe op) := by
  have harv : ∀ op ∈ (genArvPhase env arvPages env.seedTextId []).1,
      preMergeOp op ∧ opSafe op :=
    fun op hop => genArvPhase_class env arvPages env.seedTextId [] op hop
  simp only [genUpdate]
  split
  · exact ⟨(genArvPhase env arvPages env.seedTextId []).1, [], [], by simp, harv,
      by simp, by simp⟩
  · rename_i s hpeq
    have hund : ∀ op ∈ genUndeletePhase env s.undeleted_pages, preMergeOp op ∧ opSafe op :=
      fun op hop => genUndeletePhase_class env s.undeleted_pages op hop
    have hdrv := fun op hop => genDrvChunks_class env
      (iterChunks env.maxIdsPerQuery s.deleted_pages)
      (genArvPhase env arvPages env.seedTextId []).2.1
      (genArvPhase env arvPages env.seedTextId []).2.2 op hop
    have hA2 : ∀ op ∈ (genArvPhase env arvPages env.seedTextId []).1
        ++ genUndeletePhase env s.undeleted_pages
        ++ (genDrvChunks env (iterChunks env.maxIdsPerQuery s.deleted_pages)
              (genArvPhase env arvPages env.seedTextId []).2.1
              (genArvPhase env arvPages env.seedTextId []).2.2).1,
        preMergeOp op ∧ opSafe op := by
      intro op hop
      rcases List.mem_append.1 hop with h | h
      · rcases List.mem_append.1 h with h1 | h2
        · exact harv op h1
        · exact hund op h2
      · exact hdrv op h
    split
    · exact ⟨_, [], [], by simp, hA2, by simp, by simp⟩
    · have himp := fun op hop => genImpChunks_class env
        (iterChunks env.maxIdsPerQuery s.imported_pages)
        (genDrvChunks env (iterChunks env.maxIdsPerQuery s.deleted_pages)
          (genArvPhase env arvPages env.seedTextId []).2.1
          (genArvPhase env arvPages env.seedTextId []).2.2).2.1
        (genDrvChunks env (iterChunks env.maxIdsPerQuery s.deleted_pages)
          (genArvPhase env arvPages env.seedTextId []).2.1
          (genArvPhase env arvPages env.seedTextId []).2.2).2.2.1 op hop
      have hA3 : ∀ op ∈ (genArvPhase env arvPages env.seedTextId []).1
          ++ genUndeletePhase env s.undeleted_pages
          ++ (genDrvChunks env (iterChunks env.maxIdsPerQuery s.deleted_pages)
                (genArvPhase env arvPages env.seedTextId []).2.1
                (genArvPhase env arvPages env.seedTextId []).2.2).1
          ++ (genImpChunks env (iterChunks env.maxIdsPerQuery s.imported_pages)
                (genDrvChunks env (iterChunks env.maxIdsPerQuery s.deleted_pages)
                  (genArvPhase env arvPages env.seedTextId []).2.1
                  (genArvPhase env arvPages env.seedTextId []).2.2).2.1
                (genDrvChunks env (iterChunks env.maxIdsPerQuery s.deleted_pages)
                  (genArvPhase env arvPages env.seedTextId []).2.1
                  (genArvPhase env arvPages env.seedTextId []).2.2).2.2.1).1,
          preMergeOp op ∧ opSafe op := by
        intro op hop
        rcases List.mem_append.1 hop with h | h
        · exact hA2 op h
        · exact himp op h
      split
      · exact ⟨_, [], [], by simp, hA3, by simp, by simp⟩
      · have hmrg : ∀ op ∈ (genMergePhase s.moved_pages s.merged_pages).1,
            isMergeOp op ∧ opSafe op :=
          fun op hop => genMergePhase_class s.moved_pages s.merged_pages op hop
        split
        · exact ⟨_, (genMergePhase s.moved_pages s.merged_pages).1, [],
            by simp, hA3, hmrg, by simp⟩
        · refine ⟨_, (genMergePhase s.moved_pages s.merged_pages).1,
            genDeletedRevsPhase s.deleted_revisions
              ++ genAddedTagsPhase env s.added_tags
              ++ genRemovedTagsPhase s.removed_tags,
            by simp, hA3, hmrg, ?_⟩
          intro op hop
          rcases List.mem_append.1 hop with h | h
          · rcases List.mem_append.1 h with h1 | h2
            · exact genDeletedRevsPhase_class s.deleted_revisions op h1
            · exact genAddedTagsPhase_class env s.added_tags op h2
          · exact genRemovedTagsPhase_class s.removed_tags op h

end WsSync

namespace WsSync

theorem revKProj_preMerge_ins (env : Env) (r : Nat) (op : Op) (x : RowKOp RevRow)
    (hpre : preMergeOp op) (hpx : revKProj env r op = some x) :
    ∃ row, x = RowKOp.ins row := by
  cases op with
  | insertText old_id txt fl => simp [revKProj] at hpx
  | insertRevision rid row =>
    by_cases hr : rid = r
    · rw [revKProj, if_pos hr] at hpx
      exact ⟨row, (Option.some.injEq _ _ ▸ hpx).symm⟩
    · rw [revKProj, if_neg hr] at hpx
      cases hpx
  | insertArchive rid row => simp [revKProj] at hpx
  | insertTaggedRevision rid tag => simp [revKProj] at hpx
  | insertTaggedArchivedRevision rid tag => simp [revKProj] at hpx
  | deleteTaggedRevision rid tag => simp [revKProj] at hpx
  | deleteTaggedArchivedRevision rid tag => simp [revKProj] at hpx
  | updateArPageId ns tb pid => simp [revKProj] at hpx
  | moveTaggedArchivedRevision pid => simp [revKProj] at hpx
  | moveRevision pid => simp [revKProj] at hpx
  | mergeRevision src ns t mp => exact hpre.elim
  | updateRevDeleted rid b => exact hpre.elim
  | updateArDeleted rid b => simp [revKProj] at hpx

theorem revKProj_postMerge_upd (env : Env) (r : Nat) (op : Op) (x : RowKOp RevRow)
    (hpost : postMergeOp op) (hpx : revKProj env r op = some x) :
    ∃ b, x = RowKOp.upd b := by
  cases op with
  | insertText old_id txt fl => simp [revKProj] at hpx
  | insertRevision rid row => exact hpost.elim
  | insertArchive rid row => simp [revKProj] at hpx
  | insertTaggedRevision rid tag => simp [revKProj] at hpx
  | insertTaggedArchivedRevision rid tag => simp [revKProj] at hpx
  | deleteTaggedRevision rid tag => simp [revKProj] at hpx
  | deleteTaggedArchivedRevision rid tag => simp [revKProj] at hpx
  | updateArPageId ns tb pid => simp [revKProj] at hpx
  | moveTaggedArchivedRevision pid => simp [revKProj] at hpx
  | moveRevision pid => simp [revKProj] at hpx
  | mergeRevision src ns t mp => exact hpost.elim
  | updateRevDeleted rid b =>
    by_cases hr : rid = r
    · rw [revKProj, if_pos hr] at hpx
      exact ⟨b, (Option.some.injEq _ _ ▸ hpx).symm⟩
    · rw [revKProj, if_neg hr] at hpx
      cases hpx
  | updateArDeleted rid b => simp [revKProj] at hpx

theorem revKProj_eq_mrg (env : Env) (r : Nat) (op : Op) (s : Nat) (d : Option Nat) (mp : Nat)
    (hpx : revKProj env r op = some (RowKOp.mrg s d mp)) :
    ∃ ns t, op = Op.mergeRevision s ns t mp ∧ env.pageLookup ns t = d := by
  cases op with
  | insertText old_id txt fl => simp [revKProj] at hpx
  | insertRevision rid row =>
    by_cases hr : rid = r
    · rw [revKProj, if_pos hr] at hpx
      cases hpx
    · rw [revKProj, if_neg hr] at hpx
      cases hpx
  | insertArchive rid row => simp [revKProj] at hpx
  | insertTaggedRevision rid tag => simp [revKProj] at hpx
  | insertTaggedArchivedRevision rid tag => simp [revKProj] at hpx
  | deleteTaggedRevision rid tag => simp [revKProj] at hpx
  | deleteTaggedArchivedRevision rid tag => simp [revKProj] at hpx
  | updateArPageId ns tb pid => simp [revKProj] at hpx
  | moveTaggedArchivedRevision pid => simp [revKProj] at hpx
  | moveRevision pid => simp [revKProj] at hpx
  | mergeRevision src ns t mpp =>
    rw [revKProj] at hpx
    injection hpx with hpx
    injection hpx with h1 h2 h3
    exact ⟨ns, t, by rw [h1, h3], h2⟩
  | updateRevDeleted rid b =>
    by_cases hr : rid = r
    · rw [revKProj, if_pos hr] at hpx
      cases hpx
    · rw [revKProj, if_neg hr] at hpx
      cases hpx
  | updateArDeleted rid b => simp [revKProj] at hpx

theorem arKProj_preMerge_ins (r : Nat) (op : Op) (x : RowKOp ArRow)
    (hpre : preMergeOp op) (hpx : arKProj r op = some x) :
    ∃ row, x = RowKOp.ins row := by
  cases op with
  | insertText old_id txt fl => simp [arKProj] at hpx
  | insertRevision rid row => simp [arKProj] at hpx
  | insertArchive rid row =>
    by_cases hr : rid = r
    · rw [arKProj, if_pos hr] at hpx
      exact ⟨row, (Option.some.injEq _ _ ▸ hpx).symm⟩
    · rw [arKProj, if_neg hr] at hpx
      cases hpx
  | insertTaggedRevision rid tag => simp [arKProj] at hpx
  | insertTaggedArchivedRevision rid tag => simp [arKProj] at hpx
  | deleteTaggedRevision rid tag => simp [arKProj] at hpx
  | deleteTaggedArchivedRevision rid tag => simp [arKProj] at hpx
  | updateArPageId ns tb pid => simp [arKProj] at hpx
  | moveTaggedArchivedRevision pid => simp [arKProj] at hpx
  | moveRevision pid => simp [arKProj] at hpx
  | mergeRevision src ns t mp => simp [arKProj] at hpx
  | updateRevDeleted rid b => simp [arKProj] at hpx
  | updateArDeleted rid b => exact hpre.elim

theorem arKProj_postMerge_upd (r : Nat) (op : Op) (x : RowKOp ArRow)
    (hpost : postMergeOp op) (hpx : arKProj r op = some x) :
    ∃ b, x = RowKOp.upd b := by
  cases op with
  | insertText old_id txt fl => simp [arKProj] at hpx
  | insertRevision rid row => exact hpost.elim
  | insertArchive rid row => exact hpost.elim
  | insertTaggedRevision rid tag => simp [arKProj] at hpx
  | insertTaggedArchivedRevision rid tag => simp [arKProj] at hpx
  | deleteTaggedRevision rid tag => simp [arKProj] at hpx
  | deleteTaggedArchivedRevision rid tag => simp [arKProj] at hpx
  | updateArPageId ns tb pid => simp [arKProj] at hpx
  | moveTaggedArchivedRevision pid => simp [arKProj] at hpx
  | moveRevision pid => simp [arKProj] at hpx
  | mergeRevision src ns t mp => simp [arKProj] at hpx
  | updateRevDeleted rid b => simp [arKProj] at hpx
  | updateArDeleted rid b =>
    by_cases hr : rid = r
    · rw [arKProj, if_pos hr] at hpx
      exact ⟨b, (Option.some.injEq _ _ ▸ hpx).symm⟩
    · rw [arKProj, if_neg hr] at hpx
      cases hpx

theorem arKProj_isMerge_none (r : Nat) (op : Op) (hm : isMergeOp op) :
    arKProj r op = none := by
  cases op with
  | mergeRevision src ns t mp => rfl
  | insertText old_id txt fl => exact hm.elim
  | insertRevision rid row => exact hm.elim
  | insertArchive rid row => exact hm.elim
  | insertTaggedRevision rid tag => exact hm.elim
  | insertTaggedArchivedRevision rid tag => exact hm.elim
  | deleteTaggedRevision rid tag => exact hm.elim
  | deleteTaggedArchivedRevision rid tag => exact hm.elim
  | updateArPageId ns tb pid => exact hm.elim
  | moveTaggedArchivedRevision pid => exact hm.elim
  | moveRevision pid => exact hm.elim
  | updateRevDeleted rid b => exact hm.elim
  | updateArDeleted rid b => exact hm.elim

end WsSync

namespace WsSync

/-- C6 (amended): applying a window's storage-operation list twice in order
against a fresh replica yields the same replica state as applying it once,
provided (i) no merge operation's destination (as resolved by the
apply-time page lookup) is the source page of any merge in the same window
and (ii) no archived row inserted by the window falls inside the
namespace-and-title scope of any of the window's restore page-id updates.
Inserts are upserts whose conflict policy rewrites only the text-id
column; the archive-to-live moves find nothing to move on the second pass
because under (ii) every archived row still carries an unknown page id;
and bitmask and tag updates are keyed by revision id and tag name. -/
theorem claim6_amended_idempotence (env : Env) (arvPages : List Page) (les : List LogEvent)
    (hchain : ∀ op ∈ (genUpdate env arvPages les).1, ∀ op' ∈ (genUpdate env arvPages les).1,
        mergeChainOk env op op' = true)
    (hRT : ∀ op ∈ (genUpdate env arvPages les).1, ∀ op' ∈ (genUpdate env arvPages les).1,
        restoreTitleOk op op' = true) :
    applyOps env (applyOps env Replica.empty (genUpdate env arvPages les).1)
        (genUpdate env arvPages les).1
      = applyOps env Replica.empty (genUpdate env arvPages les).1 := by
  obtain ⟨A, B, C, hsplit, hA, hB, hC⟩ := genUpdate_split env arvPages les
  have hmemL : ∀ op ∈ B, op ∈ (genUpdate env arvPages les).1 := by
    intro op hop
    rw [hsplit]
    exact List.mem_append.2 (Or.inl (List.mem_append.2 (Or.inr hop)))
  have hsafe : ∀ op ∈ (genUpdate env arvPages les).1, opSafe op := by
    rw [hsplit]
    intro op hop
    rcases List.mem_append.1 hop with h | h
    · rcases List.mem_append.1 h with h1 | h2
      · exact (hA op h1).2
      · exact (hB op h2).2
    · exact (hC op h).2
  have h0 : archInert (genUpdate env arvPages les).1 Replica.empty := by
    constructor
    · intro r a h
      cases h
    · intro op _
      cases op with
      | updateArPageId ns tb pid =>
        intro r a h
        cases h
      | insertText old_id txt fl => trivial
      | insertRevision rid row => trivial
      | insertArchive rid row => trivial
      | insertTaggedRevision rid tag => trivial
      | insertTaggedArchivedRevision rid tag => trivial
      | deleteTaggedRevision rid tag => trivial
      | deleteTaggedArchivedRevision rid tag => trivial
      | moveTaggedArchivedRevision pid => trivial
      | moveRevision pid => trivial
      | mergeRevision src ns t mp => trivial
      | updateRevDeleted rid b => trivial
      | updateArDeleted rid b => trivial
  obtain ⟨h1arch, h1rev, h1ar, h1text, h1tgrev, h1tgar⟩ :=
    applyOps_proj env (genUpdate env arvPages les).1 hRT (genUpdate env arvPages les).1
      (fun o ho => ho) hsafe Replica.empty h0
  obtain ⟨_, h2rev, h2ar, h2text, h2tgrev, h2tgar⟩ :=
    applyOps_proj env (genUpdate env arvPages les).1 hRT (genUpdate env arvPages les).1
      (fun o ho => ho) hsafe
      (applyOps env Replica.empty (genUpdate env arvPages les).1) h1arch
  refine Replica.ext ?_ ?_ ?_ ?_ ?_
  · funext k
    rw [h2text k, h1text k]
    exact constWrite_replay (fun _ w => some w) (fun _ _ _ => rfl) _ _
  · funext r
    rw [h2rev r, h1rev r]
    have hKsplit : (genUpdate env arvPages les).1.filterMap (revKProj env r)
        = A.filterMap (revKProj env r) ++ B.filterMap (revKProj env r)
            ++ C.filterMap (revKProj env r) := by
      rw [hsplit, List.filterMap_append, List.filterMap_append]
    rw [hKsplit]
    apply revK_replay
    · intro x hx
      obtain ⟨op, hop, hpx⟩ := List.mem_filterMap.1 hx
      exact revKProj_preMerge_ins env r op x (hA op hop).1 hpx
    · intro x hx
      obtain ⟨op, hop, hpx⟩ := List.mem_filterMap.1 hx
      have hm := (hB op hop).1
      cases op with
      | mergeRevision src ns t mp =>
        rw [revKProj] at hpx
        injection hpx with hpx
        exact ⟨src, env.pageLookup ns t, mp, hpx.symm⟩
      | insertText old_id txt fl => exact hm.elim
      | insertRevision rid row => exact hm.elim
      | insertArchive rid row => exact hm.elim
      | insertTaggedRevision rid tag => exact hm.elim
      | insertTaggedArchivedRevision rid tag => exact hm.elim
      | deleteTaggedRevision rid tag => exact hm.elim
      | deleteTaggedArchivedRevision rid tag => exact hm.elim
      | updateArPageId ns tb pid => exact hm.elim
      | moveTaggedArchivedRevision pid => exact hm.elim
      | moveRevision pid => exact hm.elim
      | updateRevDeleted rid b => exact hm.elim
      | updateArDeleted rid b => exact hm.elim
    · intro x hx
      obtain ⟨op, hop, hpx⟩ := List.mem_filterMap.1 hx
      exact revKProj_postMerge_upd env r op x (hC op hop).1 hpx
    · intro s d mp hmem s' d' mp' hmem'
      obtain ⟨op, hop, hpx⟩ := List.mem_filterMap.1 hmem
      obtain ⟨op', hop', hpx'⟩ := List.mem_filterMap.1 hmem'
      obtain ⟨ns, t, rfl, hd⟩ := revKProj_eq_mrg env r op s d mp hpx
      obtain ⟨ns', t', rfl, hd'⟩ := revKProj_eq_mrg env r op' s' d' mp' hpx'
      have hmc := hchain _ (hmemL _ hop) _ (hmemL _ hop')
      rw [mergeChainOk] at hmc
      rw [← hd]
      exact of_decide_eq_true hmc
  · funext r
    rw [h2ar r, h1ar r]
    have hBnil : B.filterMap (arKProj r) = [] := by
      rw [List.filterMap_eq_nil_iff]
      intro op hop
      exact arKProj_isMerge_none r op (hB op hop).1
    have hKsplit : (genUpdate env arvPages les).1.filterMap (arKProj r)
        = A.filterMap (arKProj r) ++ C.filterMap (arKProj r) := by
      rw [hsplit, List.filterMap_append, List.filterMap_append, hBnil, List.append_nil]
    rw [hKsplit]
    apply arK_replay
    · intro x hx
      obtain ⟨op, hop, hpx⟩ := List.mem_filterMap.1 hx
      exact arKProj_preMerge_ins r op x (hA op hop).1 hpx
    · intro x hx
      obtain ⟨op, hop, hpx⟩ := List.mem_filterMap.1 hx
      exact arKProj_postMerge_upd r op x (hC op hop).1 hpx
  · funext r t
    rw [h2tgrev r t, h1tgrev r t]
    exact constWrite_replay (fun _ b => b) (fun _ _ _ => rfl) _ _
  · funext r t
    rw [h2tgar r t, h1tgar r t]
    exact constWrite_replay (fun _ b => b) (fun _ _ _ => rfl) _ _

theorem claim6_amended_witness :
    applyOps baseEnv (applyOps baseEnv Replica.empty winWOps) winWOps
      = applyOps baseEnv Replica.empty winWOps :=
  claim6_amended_idempotence baseEnv [pageW] lesW (by decide) (by decide)

/-- The second hypothesis of the amended idempotence theorem is necessary:
in the restore-interference window (`lesR` against `envR`) the first pass
leaves the imported archived revision 200 in the archive with an unknown
page id, while the second pass's scoped update sets its page id to the
restored page and the subsequent move relocates it into the live relation,
so double application differs from single application. -/
theorem restore_interference_not_idempotent :
    applyOps envR (applyOps envR Replica.empty winRops) winRops
      ≠ applyOps envR Replica.empty winRops := by
  have h200 : (applyOps envR (applyOps envR Replica.empty winRops) winRops).revision 200
      ≠ (applyOps envR Replica.empty winRops).revision 200 := by decide
  intro h
  exact h200 (by rw [h])

end WsSync
